import Mathlib

/-!
Shallow embedding of the in-memory block-addressed file system from
`src/filesystem.ts` (classes `FileSystem` and `VFSManager`), together with
theorems settling the frozen claims about its specification.

Conventions of the embedding:
* JavaScript strings are modelled as Lean `String`; indices and lengths are
  over the character list (`String.data`), which agrees with JS UTF-16
  semantics on the ASCII data exercised here.
* `Date.now()` is modelled by an explicit time parameter `t : Nat` passed to
  every mutating operation.
* Thrown JS exceptions are modelled by `Except Err`; each `Error` message of
  the source has its own `Err` constructor.  Stateful methods return
  `Except Err α × FS`: the state component carries the mutations that happened
  before a throw, exactly as the mutable TypeScript object would.
* Mutation of a node found by path resolution is modelled by rebuilding the
  tree along the resolved segment list (`updateNodeAt`); this coincides with
  the in-place object mutation of the source for every root-observable state.
-/

/-- Shared node metadata (`BaseNodeMeta` in the source). -/
structure NodeMeta where
  createdAt : Nat
  updatedAt : Nat
  owner : String
  mode : String
deriving Repr, DecidableEq

/-- `FSNode = FileNode | DirectoryNode`.  A directory's `children` record is an
insertion-ordered string-keyed map, modelled as an association list. -/
inductive FSNode where
  | file (name : String) (blocks : List Nat) (size : Nat) (meta : NodeMeta)
  | dir (name : String) (children : List (String × FSNode)) (meta : NodeMeta)

/-- The `name` field common to both node kinds. -/
def FSNode.nameOf : FSNode → String
  | .file n _ _ _ => n
  | .dir n _ _ => n

/-- The `children` record of a node (`{}`-like empty view on files, which the
source never exercises because only directories reach the child accesses). -/
def FSNode.childrenOf : FSNode → List (String × FSNode)
  | .file _ _ _ _ => []
  | .dir _ ch _ => ch

/-- `record[key]` lookup on a JS string-keyed record. -/
def lookupChild : List (String × FSNode) → String → Option FSNode
  | [], _ => none
  | (k, v) :: rest, key => if k = key then some v else lookupChild rest key

/-- `record[key] = v`: replaces in place if the key exists, else appends
(insertion order of JS records). -/
def setChild : List (String × FSNode) → String → FSNode → List (String × FSNode)
  | [], key, v => [(key, v)]
  | (k, w) :: rest, key, v =>
      if k = key then (k, v) :: rest else (k, w) :: setChild rest key v

/-- `delete record[key]`. -/
def removeChild : List (String × FSNode) → String → List (String × FSNode)
  | [], _ => []
  | (k, w) :: rest, key => if k = key then rest else (k, w) :: removeChild rest key

/-- One `Err` constructor per distinct thrown value of the source. -/
inductive Err where
  /-- the bare string thrown by `if (!p) throw p = "/"` in `normalizePath` -/
  | thrownString (s : String)
  /-- "Invalid path - root has no parent" -/
  | rootHasNoParent
  /-- "Directory not found: ..." (resolveParent) -/
  | dirNotFound (s : String)
  /-- "Not a directory while resolving path: ..." (getNode) -/
  | notADirectory (s : String)
  /-- "Path does not exist: ..." (getNode) -/
  | pathDoesNotExist (s : String)
  /-- "Root already exists" (createDirectory) -/
  | rootAlreadyExists
  /-- "Entry already exists" (createDirectory / createFile) -/
  | entryAlreadyExists
  /-- "Not a directory" (listDirectory) -/
  | notADirectoryList
  /-- "Disk full while creating file" (createFileNode) -/
  | diskFullCreate
  /-- "Disk full while writing file" (writeFile) -/
  | diskFullWrite
  /-- "Not a file" (readFile / writeFile / appendFile) -/
  | notAFile
  /-- "Cannot delete root" (deleteNode) -/
  | cannotDeleteRoot
  /-- "Path not found" (deleteNode / rename) -/
  | pathNotFound
  /-- "Destination name already exists" (rename) -/
  | destNameExists
  /-- "Source not found" (move) -/
  | sourceNotFound
  /-- "Destination exists and is not a directory" (move / copy) -/
  | destExistsNotDir
  /-- "Destination entry already exists" (move / copy) -/
  | destEntryExists
  /-- "search root must be directory" (search) -/
  | searchRootNotDir
  /-- "Mount point already used" (VFSManager.mount) -/
  | mountPointUsed
  /-- runtime failure of the non-null assertion on the root mount in resolve -/
  | rootMountMissing
deriving Repr, DecidableEq

/- ---------------------- string helpers (JS semantics) ---------------------- -/

/-- JS `s.length` (character count). -/
def strLen (s : String) : Nat := s.data.length

/-- JS `s.slice(n)` / suffix from character index `n`. -/
def strDrop (s : String) (n : Nat) : String := ⟨s.data.drop n⟩

/-- JS `s.slice(0, n)` / first `n` characters. -/
def strTake (s : String) (n : Nat) : String := ⟨s.data.take n⟩

/-- JS `array.join("")` over strings. -/
def strJoin : List String → String
  | [] => ""
  | s :: rest => s ++ strJoin rest

/-- JS `arr[i] ?? d`: total list indexing with an explicit default for
out-of-range indices. -/
def listIdxD {a : Type} (d : a) : List a → Nat → a
  | [], _ => d
  | x :: _, 0 => x
  | _ :: rest, n + 1 => listIdxD d rest n

/-- JS `s.startsWith(pre)`. -/
def strStartsWith (s pre : String) : Bool :=
  s.data.take pre.data.length == pre.data

/-- JS `s.endsWith(suf)`. -/
def strEndsWith (s suf : String) : Bool :=
  s.data.reverse.take suf.data.length == suf.data.reverse

/-- JS `s.split("/")` (the only separator used by the source). -/
def splitSlashAux : List Char → List Char → List String
  | [], cur => [⟨cur.reverse⟩]
  | c :: rest, cur =>
      if c = '/' then ⟨cur.reverse⟩ :: splitSlashAux rest []
      else splitSlashAux rest (c :: cur)

/-- JS `s.split("/")`. -/
def splitSlash (s : String) : List String := splitSlashAux s.data []

/- ---------------------- path normalization ---------------------- -/

/-- Segment processing of Node's `path.posix.normalize`: drops empty and `"."`
segments, resolves `".."` against the accumulated result, keeping leading
`".."`s only when `allowAboveRoot` (relative paths). -/
def normSegs (allowAboveRoot : Bool) (res : List String) : List String → List String
  | [] => res
  | seg :: rest =>
    if seg = "" ∨ seg = "." then normSegs allowAboveRoot res rest
    else if seg = ".." then
      if res ≠ [] ∧ res.getLast? ≠ some ".." then
        normSegs allowAboveRoot res.dropLast rest
      else if allowAboveRoot then normSegs allowAboveRoot (res ++ [".."]) rest
      else normSegs allowAboveRoot res rest
    else normSegs allowAboveRoot (res ++ [seg]) rest

/-- Node's `path.posix.normalize`. -/
def posixNormalize (path : String) : String :=
  if path = "" then "."
  else
    let isAbs := strStartsWith path "/"
    let trailing := strEndsWith path "/"
    let core := String.intercalate "/" (normSegs (!isAbs) [] (splitSlash path))
    if core = "" then
      if isAbs then "/" else if trailing then "./" else "."
    else
      let core' := if trailing then core ++ "/" else core
      if isAbs then "/" ++ core' else core'

/-- `normalizePath` of the source.  Note the faithful modelling of
`if (!p) throw p = "/"`: an empty path THROWS the bare string `"/"` (the
assignment expression's value) instead of returning it. -/
def normalizePath (p : String) : Except Err String :=
  if p = "" then .error (.thrownString "/")
  else
    let np := posixNormalize p
    .ok (if strStartsWith np "/" then np else "/" ++ np)

/-- `normalized.split("/").filter(Boolean)`. -/
def pathSegments (s : String) : List String :=
  (splitSlash s).filter (fun seg => !(seg == ""))

/- ---------------------- FileSystem state ---------------------- -/

/-- The mutable state of one `FileSystem` volume. -/
structure FS where
  name : String
  totalBlocks : Nat
  blockSize : Nat
  /-- `0 = free`, `1 = used` -/
  freeBlockMap : List Nat
  /-- data stored in each block; `""` means empty block -/
  blocks : List String
  root : FSNode

/-- `new FileSystem(...)` (defaults `totalBlocks = 1024`, `blockSize = 4096`
are supplied by callers). -/
def FS.new (name : String) (totalBlocks blockSize : Nat) (t : Nat) : FS :=
  { name := name
    totalBlocks := totalBlocks
    blockSize := blockSize
    freeBlockMap := List.replicate totalBlocks 0
    blocks := List.replicate totalBlocks ""
    root := .dir "/" [] ⟨t, t, "root", "rwxr-xr-x"⟩ }

/-- `array.indexOf(0)` as an `Option`al first index holding `0`. -/
def firstFree : List Nat → Option Nat
  | [] => none
  | v :: rest => if v = 0 then some 0 else (firstFree rest).map (· + 1)

/-- `allocateBlock()`: first-fit scan, mark used, reset chunk. -/
def FS.allocateBlock (fs : FS) : Option Nat × FS :=
  match firstFree fs.freeBlockMap with
  | none => (none, fs)
  | some idx =>
      (some idx, { fs with freeBlockMap := fs.freeBlockMap.set idx 1
                           blocks := fs.blocks.set idx "" })

/-- `freeBlock(idx)`: silent no-op out of `[0, totalBlocks)`, else clears the
occupancy flag and the chunk. -/
def FS.freeBlock (fs : FS) (idx : Nat) : FS :=
  if idx < fs.totalBlocks then
    { fs with freeBlockMap := fs.freeBlockMap.set idx 0
              blocks := fs.blocks.set idx "" }
  else fs

/-- `getFreeBlockCount()`: the number of `0` entries of the occupancy map. -/
def FS.getFreeBlockCount (fs : FS) : Nat := fs.freeBlockMap.count 0

/-- The chunk-and-allocate loop shared by `createFileNode` and `writeFile`,
with an explicit structural fuel: while `cursor < content.length`, allocate a
block (on exhaustion roll back all blocks allocated by this loop and report
failure), store the next `blockSize`-character slice in it, and advance.
`acc` is the `blocks` array accumulated so far.

Each loop iteration of the source either terminates or removes one free
block, so the fuel supplied by `allocChunks` below is never exhausted; the
fuel-zero branch is chosen to coincide with the allocator-exhausted branch,
and the theorem `allocChunks_eq` proves that the model satisfies the
unconditional loop recurrence of the source. -/
def allocChunksF (bs : Nat) (content : String) :
    Nat → FS → Nat → List Nat → Option (List Nat) × FS
  | 0, fs, _, acc => (none, acc.foldl FS.freeBlock fs)
  | fuel + 1, fs, cursor, acc =>
    if cursor < strLen content then
      match fs.allocateBlock with
      | (none, fs1) => (none, acc.foldl FS.freeBlock fs1)
      | (some b, fs1) =>
        let chunk := strTake (strDrop content cursor) bs
        let fs2 := { fs1 with blocks := fs1.blocks.set b chunk }
        allocChunksF bs content fuel fs2 (cursor + bs) (acc ++ [b])
    else (some acc, fs)

/-- The chunk-and-allocate loop, with fuel covering one iteration per free
block plus a terminating one. -/
def allocChunks (bs : Nat) (content : String) (fs : FS) (cursor : Nat)
    (acc : List Nat) : Option (List Nat) × FS :=
  allocChunksF bs content (fs.getFreeBlockCount + 1) fs cursor acc

/- ---------------------- path resolution on the tree ---------------------- -/

/-- The walk of `getNode`: at each segment the current node must be a
directory (`Not a directory while resolving path`) containing the segment
(`Path does not exist`). -/
def walkNode : FSNode → List String → Except Err FSNode
  | n, [] => .ok n
  | .file _ _ _ _, part :: _ => .error (.notADirectory part)
  | .dir nm ch m, part :: rest =>
      match lookupChild ch part with
      | none => .error (.pathDoesNotExist part)
      | some c => walkNode c rest

/-- The segments `getNode` walks for a raw path: normalize, then split.
(`getNode` early-returns the root for `"/"`, which equals walking the empty
segment list.) -/
def getSegs (p : String) : Except Err (List String) :=
  match normalizePath p with
  | .error e => .error e
  | .ok np => .ok (pathSegments np)

/-- `getNode(p)`. -/
def FS.getNode (fs : FS) (p : String) : Except Err FSNode :=
  match getSegs p with
  | .error e => .error e
  | .ok segs => walkNode fs.root segs

/-- Result of `resolveParent`: the segment path of the parent directory, the
final name, and the parent node itself. -/
structure ParentRes where
  psegs : List String
  name : String
  parent : FSNode

/-- The walk of `resolveParent` over all but the last segment: each visited
child must exist and be a directory, else `Directory not found: <prefix>`. -/
def walkDirs (n : FSNode) (done : List String) : List String → Except Err FSNode
  | [] => .ok n
  | part :: rest =>
      match lookupChild n.childrenOf part with
      | some (.dir nm ch m) => walkDirs (.dir nm ch m) (done ++ [part]) rest
      | _ => .error (.dirNotFound (String.intercalate "/" (done ++ [part])))

/-- `resolveParent(p)`: normalizes (again — callers pass already-normalized
paths, so segments come from the twice-normalized path), rejects the root,
walks to the parent directory. -/
def FS.resolveParent (fs : FS) (p : String) : Except Err ParentRes :=
  match normalizePath p with
  | .error e => .error e
  | .ok np =>
    let parts := pathSegments np
    match parts.getLast? with
    | none => .error .rootHasNoParent
    | some last =>
      match walkDirs fs.root [] parts.dropLast with
      | .error e => .error e
      | .ok parent => .ok ⟨parts.dropLast, last, parent⟩

/-- Rebuild the tree with `f` applied to the node reached by `segs`; identity
when the path no longer resolves (which corresponds to mutating an object
already detached from the root, invisible from the root). -/
def updateNodeAt (n : FSNode) (segs : List String) (f : FSNode → FSNode) : FSNode :=
  match segs with
  | [] => f n
  | s :: rest =>
    match n with
    | .file _ _ _ _ => n
    | .dir nm ch m =>
      match lookupChild ch s with
      | none => n
      | some c => .dir nm (setChild ch s (updateNodeAt c rest f)) m

/-- `parent.children[key] = child; parent.meta.updatedAt = now()`. -/
def insertTouch (key : String) (child : FSNode) (t : Nat) : FSNode → FSNode
  | .dir nm ch m => .dir nm (setChild ch key child) { m with updatedAt := t }
  | n => n

/-- `delete parent.children[key]; parent.meta.updatedAt = now()`. -/
def removeTouch (key : String) (t : Nat) : FSNode → FSNode
  | .dir nm ch m => .dir nm (removeChild ch key) { m with updatedAt := t }
  | n => n

/-- `delete parent.children[key]` alone (move detaches without touching). -/
def childRemove (key : String) : FSNode → FSNode
  | .dir nm ch m => .dir nm (removeChild ch key) m
  | n => n

/-- `parent.children[key] = child` alone. -/
def childInsert (key : String) (child : FSNode) : FSNode → FSNode
  | .dir nm ch m => .dir nm (setChild ch key child) m
  | n => n

/-- `node.meta.updatedAt = now()` on a directory. -/
def touchDir (t : Nat) : FSNode → FSNode
  | .dir nm ch m => .dir nm ch { m with updatedAt := t }
  | n => n

/- ---------------------- directory operations ---------------------- -/

/-- `createDirectory(p, opts)`. -/
def FS.createDirectory (fs : FS) (p : String) (owner mode : Option String)
    (t : Nat) : Except Err FSNode × FS :=
  match normalizePath p with
  | .error e => (.error e, fs)
  | .ok np =>
    if np = "/" then (.error .rootAlreadyExists, fs)
    else
      match fs.resolveParent np with
      | .error e => (.error e, fs)
      | .ok pr =>
        match lookupChild pr.parent.childrenOf pr.name with
        | some _ => (.error .entryAlreadyExists, fs)
        | none =>
          let dir : FSNode :=
            .dir pr.name [] ⟨t, t, owner.getD "root", mode.getD "rwxr-xr-x"⟩
          (.ok dir, { fs with root := updateNodeAt fs.root pr.psegs (insertTouch pr.name dir t) })

/-- One entry of `listDirectory`'s result. -/
structure DirEntry where
  name : String
  /-- `"file"` or `"directory"` -/
  type : String
  size : Option Nat
  meta : NodeMeta
deriving Repr, DecidableEq

/-- `listDirectory(p)`. -/
def FS.listDirectory (fs : FS) (p : String) : Except Err (List DirEntry) × FS :=
  match fs.getNode p with
  | .error e => (.error e, fs)
  | .ok (.file _ _ _ _) => (.error .notADirectoryList, fs)
  | .ok (.dir _ ch _) =>
      (.ok (ch.map (fun kv =>
        match kv.2 with
        | .file _ _ sz m => ⟨kv.1, "file", some sz, m⟩
        | .dir _ _ m => ⟨kv.1, "directory", none, m⟩)), fs)

/- ---------------------- file operations ---------------------- -/

/-- `createFileNode(name, content, owner, mode)`: the chunk-and-allocate loop,
then the fresh `FileNode` (state may carry a rolled-back allocator on
`DiskFull`). -/
def FS.createFileNode (fs : FS) (name content owner : String)
    (mode : Option String) (t : Nat) : Except Err FSNode × FS :=
  match allocChunks fs.blockSize content fs 0 [] with
  | (none, fs') => (.error .diskFullCreate, fs')
  | (some blocks, fs') =>
      (.ok (.file name blocks (strLen content) ⟨t, t, owner, mode.getD "rw-r--r--"⟩), fs')

/-- `createFile(p, content, opts)`. -/
def FS.createFile (fs : FS) (p content : String) (owner mode : Option String)
    (t : Nat) : Except Err FSNode × FS :=
  match normalizePath p with
  | .error e => (.error e, fs)
  | .ok np =>
    match fs.resolveParent np with
    | .error e => (.error e, fs)
    | .ok pr =>
      match lookupChild pr.parent.childrenOf pr.name with
      | some _ => (.error .entryAlreadyExists, fs)
      | none =>
        match fs.createFileNode pr.name content (owner.getD "root") mode t with
        | (.error e, fs') => (.error e, fs')
        | (.ok node, fs') =>
            (.ok node, { fs' with root := updateNodeAt fs'.root pr.psegs (insertTouch pr.name node t) })

/-- `readFile(p)`: reconstruct content from blocks (`this.blocks[b] ?? ""`). -/
def FS.readFile (fs : FS) (p : String) : Except Err String × FS :=
  match fs.getNode p with
  | .error e => (.error e, fs)
  | .ok (.dir _ _ _) => (.error .notAFile, fs)
  | .ok (.file _ bs _ _) =>
      (.ok (strJoin (bs.map (fun b => listIdxD "" fs.blocks b))), fs)

/-- In-place field update of the resolved file node at the end of
`writeFile`. -/
def fileUpdate (newBlocks : List Nat) (newSize t : Nat) : FSNode → FSNode
  | .file nm _ _ m => .file nm newBlocks newSize { m with updatedAt := t }
  | n => n

/-- `writeFile(p, content)`: frees the file's current blocks, then runs the
same chunk-and-allocate loop as create; on `DiskFull` the loop's own blocks
are rolled back and the node is NOT updated (its stale `blocks`/`size`
survive, while their blocks are already freed). -/
def FS.writeFile (fs : FS) (p content : String) (t : Nat) : Except Err FSNode × FS :=
  match normalizePath p with
  | .error e => (.error e, fs)
  | .ok np =>
    match getSegs np with
    | .error e => (.error e, fs)
    | .ok segs =>
      match walkNode fs.root segs with
      | .error e => (.error e, fs)
      | .ok (.dir _ _ _) => (.error .notAFile, fs)
      | .ok (.file nm0 bs0 _ m0) =>
        let fs1 := bs0.foldl FS.freeBlock fs
        match allocChunks fs.blockSize content fs1 0 [] with
        | (none, fs2) => (.error .diskFullWrite, fs2)
        | (some newBlocks, fs2) =>
          (.ok (.file nm0 newBlocks (strLen content) { m0 with updatedAt := t }),
           { fs2 with root := updateNodeAt fs2.root segs (fileUpdate newBlocks (strLen content) t) })

/- ---------------------- delete / rename / move / copy ---------------------- -/

mutual
/-- The `deleteRec` closure of `deleteNode`: free every block of every file in
the subtree (files free their blocks in order; directories recurse over their
children in insertion order). -/
def freeRec (fs : FS) : FSNode → FS
  | .file _ bs _ _ => bs.foldl FS.freeBlock fs
  | .dir _ ch _ => freeRecList fs ch

/-- `deleteRec` over a children list. -/
def freeRecList (fs : FS) : List (String × FSNode) → FS
  | [] => fs
  | kv :: rest => freeRecList (freeRec fs kv.2) rest
end

/-- `deleteNode(p)`. -/
def FS.deleteNode (fs : FS) (p : String) (t : Nat) : Except Err Bool × FS :=
  match normalizePath p with
  | .error e => (.error e, fs)
  | .ok np =>
    if np = "/" then (.error .cannotDeleteRoot, fs)
    else
      match fs.resolveParent np with
      | .error e => (.error e, fs)
      | .ok pr =>
        match lookupChild pr.parent.childrenOf pr.name with
        | none => (.error .pathNotFound, fs)
        | some node =>
          let fs1 := freeRec fs node
          (.ok true, { fs1 with root := updateNodeAt fs1.root pr.psegs (removeTouch pr.name t) })

/-- Set a node's own `name` field. -/
def FSNode.withName (n : FSNode) (newName : String) : FSNode :=
  match n with
  | .file _ bs sz m => .file newName bs sz m
  | .dir _ ch m => .dir newName ch m

/-- `rename(p, newName)`: delete the old key, update the node's `name`,
reinsert under the new key (which appends at the end of the record), touch the
parent. -/
def FS.rename (fs : FS) (p newName : String) (t : Nat) : Except Err FSNode × FS :=
  match normalizePath p with
  | .error e => (.error e, fs)
  | .ok np =>
    match fs.resolveParent np with
    | .error e => (.error e, fs)
    | .ok pr =>
      match lookupChild pr.parent.childrenOf pr.name with
      | none => (.error .pathNotFound, fs)
      | some node =>
        match lookupChild pr.parent.childrenOf newName with
        | some _ => (.error .destNameExists, fs)
        | none =>
          let node' := node.withName newName
          (.ok node',
           { fs with root := updateNodeAt fs.root pr.psegs (fun n =>
               match n with
               | .dir nm ch m =>
                   .dir nm (setChild (removeChild ch pr.name) newName node')
                     { m with updatedAt := t }
               | other => other) })

/-- The shared destination resolution of `move`/`copy`:
`try { dnode = getNode(dn); if dir -> (dnode, src name) else throw } catch
{ resolveParent(dn) }`.  The inner `throw` for a file destination is caught by
the surrounding `catch` like any resolution failure, so both fall through to
`resolveParent`.  Returns (parent segments, parent node, destination name). -/
def FS.destResolve (fs : FS) (dn srcName : String) :
    Except Err (List String × FSNode × String) :=
  let tryDir : Option (List String × FSNode) :=
    match getSegs dn with
    | .error _ => none
    | .ok segs =>
      match walkNode fs.root segs with
      | .ok (.dir nm ch m) => some (segs, .dir nm ch m)
      | _ => none
  match tryDir with
  | some (segs, d) => .ok (segs, d, srcName)
  | none =>
    match fs.resolveParent dn with
    | .error e => .error e
    | .ok pr => .ok (pr.psegs, pr.parent, pr.name)

/-- `move(src, dst)`. -/
def FS.move (fs : FS) (src dst : String) (t : Nat) : Except Err FSNode × FS :=
  match normalizePath src with
  | .error e => (.error e, fs)
  | .ok sn =>
    match normalizePath dst with
    | .error e => (.error e, fs)
    | .ok dn =>
      match fs.resolveParent sn with
      | .error e => (.error e, fs)
      | .ok spr =>
        match lookupChild spr.parent.childrenOf spr.name with
        | none => (.error .sourceNotFound, fs)
        | some node =>
          match fs.destResolve dn node.nameOf with
          | .error e => (.error e, fs)
          | .ok (dsegs, dparent, dname) =>
            match lookupChild dparent.childrenOf dname with
            | some _ => (.error .destEntryExists, fs)
            | none =>
              let node' := node.withName dname
              let r1 := updateNodeAt fs.root spr.psegs (childRemove spr.name)
              let r2 := updateNodeAt r1 dsegs (childInsert dname node')
              let r3 := updateNodeAt r2 spr.psegs (touchDir t)
              let r4 := updateNodeAt r3 dsegs (touchDir t)
              (.ok node', { fs with root := r4 })

mutual
/-- The `cloneRec` closure of `copy`.  Note the faithful bug: every clone at
every depth is created under the top-level destination name `destName` (files
via `createFileNode(destName, ...)`, directories via `name: destName`), and
children are keyed by `childClone.name`, i.e. also `destName`. -/
def cloneRec (fs : FS) (destName : String) (t : Nat) : FSNode → Except Err FSNode × FS
  | .file _ bs _ m =>
      let content := strJoin (bs.map (fun b => listIdxD "" fs.blocks b))
      fs.createFileNode destName content m.owner (some m.mode) t
  | .dir _ ch m =>
      match cloneChildren fs destName t [] ch with
      | (.error e, fs') => (.error e, fs')
      | (.ok newCh, fs') =>
          (.ok (.dir destName newCh { m with createdAt := t, updatedAt := t }), fs')

/-- `for (const [k, child] of entries) { c = cloneRec(child); dir.children[c.name] = c }`
over the accumulated new children record `acc`. -/
def cloneChildren (fs : FS) (destName : String) (t : Nat)
    (acc : List (String × FSNode)) :
    List (String × FSNode) → Except Err (List (String × FSNode)) × FS
  | [] => (.ok acc, fs)
  | kv :: rest =>
      match cloneRec fs destName t kv.2 with
      | (.error e, fs') => (.error e, fs')
      | (.ok c, fs') => cloneChildren fs' destName t (setChild acc c.nameOf c) rest
end

/-- `copy(src, dst)`.  The source node is looked up from the RAW `src` (one
normalization), the destination via the shared try/catch resolution. -/
def FS.copy (fs : FS) (src dst : String) (t : Nat) : Except Err FSNode × FS :=
  match fs.getNode src with
  | .error e => (.error e, fs)
  | .ok node =>
    match normalizePath dst with
    | .error e => (.error e, fs)
    | .ok dn =>
      match fs.destResolve dn node.nameOf with
      | .error e => (.error e, fs)
      | .ok (dsegs, dparent, dname) =>
        match lookupChild dparent.childrenOf dname with
        | some _ => (.error .destEntryExists, fs)
        | none =>
          match cloneRec fs dname t node with
          | (.error e, fs') => (.error e, fs')
          | (.ok copied, fs') =>
              (.ok copied, { fs' with root := updateNodeAt fs'.root dsegs (insertTouch dname copied t) })

/- ---------------------- stat / search / format ---------------------- -/

/-- Result shape of `stat`. -/
inductive StatInfo where
  | file (name : String) (size : Nat) (blocks : List Nat) (meta : NodeMeta)
  | dir (name : String) (childrenCount : Nat) (meta : NodeMeta)
deriving Repr, DecidableEq

/-- `stat(p)`. -/
def FS.stat (fs : FS) (p : String) : Except Err StatInfo × FS :=
  match fs.getNode p with
  | .error e => (.error e, fs)
  | .ok (.file nm bs sz m) => (.ok (.file nm sz bs m), fs)
  | .ok (.dir nm ch m) => (.ok (.dir nm ch.length m), fs)

/-- Node's `path.posix.join(a, b)` for the non-empty operands used by
`search`'s walk: concatenate with `/` and normalize. -/
def posixJoin (a b : String) : String := posixNormalize (a ++ "/" ++ b)

mutual
/-- The `walk` closure of `search`: pre-order traversal collecting every full
path whose (node, path) satisfies the predicate. -/
def searchWalk (pred : FSNode → String → Bool) : FSNode → String → List String
  | n, cur =>
    (if pred n cur then [cur] else []) ++
      (match n with
       | .file _ _ _ _ => []
       | .dir _ ch _ => searchWalkList pred ch cur)

/-- `walk` over a children list. -/
def searchWalkList (pred : FSNode → String → Bool) :
    List (String × FSNode) → String → List String
  | [], _ => []
  | kv :: rest, cur => searchWalk pred kv.2 (posixJoin cur kv.1) ++ searchWalkList pred rest cur
end

/-- `search(rootPath, predicate)`. -/
def FS.search (fs : FS) (rootPath : String) (pred : FSNode → String → Bool) :
    Except Err (List String) × FS :=
  match fs.getNode rootPath with
  | .error e => (.error e, fs)
  | .ok (.file _ _ _ _) => (.error .searchRootNotDir, fs)
  | .ok (.dir nm ch m) =>
    match normalizePath rootPath with
    | .error e => (.error e, fs)
    | .ok np => (.ok (searchWalk pred (.dir nm ch m) np), fs)

/-- `format(opts)`: occupancy reset to all-free; chunks cleared only when
`zeroBlocks`; fresh empty root. -/
def FS.format (fs : FS) (zeroBlocks : Bool) (t : Nat) : FS :=
  let fs1 := { fs with freeBlockMap := List.replicate fs.totalBlocks 0 }
  let fs2 := if zeroBlocks then { fs1 with blocks := List.replicate fs.totalBlocks "" } else fs1
  { fs2 with root := .dir "/" [] ⟨t, t, "root", "rwxr-xr-x"⟩ }

/- ---------------------- VFSManager ---------------------- -/

/-- One mount-table entry. -/
structure Mount where
  mountPoint : String
  fs : FS

/-- The VFS manager state: the mount table. -/
structure VFS where
  mounts : List Mount

/-- Stable insertion holding the descending mount-point-length order
(`sort((a, b) => b.mountPoint.length - a.mountPoint.length)`, stable in JS). -/
def insertMount (m : Mount) : List Mount → List Mount
  | [] => [m]
  | x :: xs =>
      if x.mountPoint.length ≤ m.mountPoint.length then m :: x :: xs
      else x :: insertMount m xs

/-- `sortMounts()`: stable sort, longest mount point first. -/
def sortMounts : List Mount → List Mount
  | [] => []
  | m :: rest => insertMount m (sortMounts rest)

/-- `new VFSManager()`: a root volume mounted at `/`. -/
def VFS.new (t : Nat) : VFS :=
  { mounts := sortMounts [⟨"/", FS.new "root" 4096 4096 t⟩] }

/-- `mount(fs, mountPoint)`. -/
def VFS.mount (v : VFS) (fsys : FS) (mountPoint : String) : Except Err Unit × VFS :=
  match normalizePath mountPoint with
  | .error e => (.error e, v)
  | .ok mp =>
    if v.mounts.any (fun m => m.mountPoint == mp) then (.error .mountPointUsed, v)
    else (.ok (), ⟨sortMounts (v.mounts ++ [⟨mp, fsys⟩])⟩)

/-- `p === m.mountPoint || p.startsWith(m.mountPoint + "/")`. -/
def mountMatches (mp np : String) : Bool :=
  np == mp || strStartsWith np (mp ++ "/")

/-- The inner path produced on a mount match: strip the mount point, an empty
remainder becomes `/`, and the remainder is normalized again. -/
def stripInner (np mp : String) : String :=
  let raw := strDrop np (strLen mp)
  let inner0 := if raw = "" then "/" else raw
  match normalizePath inner0 with
  | .ok s => s
  | .error _ => inner0

/-- The scan of `resolve` over the sorted mount table, skipping the root
entry. -/
def resolveScan : List Mount → String → Option (Mount × String)
  | [], _ => none
  | m :: rest, np =>
      if m.mountPoint = "/" then resolveScan rest np
      else if mountMatches m.mountPoint np then some (m, stripInner np m.mountPoint)
      else resolveScan rest np

/-- `this.mounts.find(m => m.mountPoint === "/")`. -/
def findRoot : List Mount → Option Mount
  | [] => none
  | m :: rest => if m.mountPoint = "/" then some m else findRoot rest

/-- `resolve(vfsPath)`: normalize, scan for a non-root longest-prefix match,
else fall back to the root mount with the full normalized path. -/
def VFS.resolve (v : VFS) (vfsPath : String) : Except Err (Mount × String) :=
  match normalizePath vfsPath with
  | .error e => .error e
  | .ok np =>
    match resolveScan v.mounts np with
    | some r => .ok r
    | none =>
      match findRoot v.mounts with
      | some rm => .ok (rm, np)
      | none => .error .rootMountMissing

/- ---------------------- specification predicates ---------------------- -/

/-- Well-formedness of a volume's block store: both parallel arrays have
exactly `totalBlocks` entries (guaranteed by the constructor and preserved by
every operation). -/
def FS.WF (fs : FS) : Prop :=
  fs.freeBlockMap.length = fs.totalBlocks ∧ fs.blocks.length = fs.totalBlocks

/-- The free-blocks-are-canonically-empty invariant of the data model: every
block whose occupancy flag is free (`0`) holds the empty chunk. -/
def FreeClean (fs : FS) : Prop :=
  ∀ i, i < fs.freeBlockMap.length →
    listIdxD 1 fs.freeBlockMap i = 0 → listIdxD "" fs.blocks i = ""

/-- `for (const b of l) map.set(b, 0)`: the occupancy map after clearing the
flags of the listed indices. -/
def setZeros (l : List Nat) (m : List Nat) : List Nat :=
  l.foldl (fun acc b => acc.set b 0) m

/- ---------------------- concrete fixture states ---------------------- -/

/-- Volume with two one-byte-per-block blocks holding the file `/f` = `"a"`
(used to exhibit the `writeFile` `DiskFull` aftermath). -/
def fsWriteFull : FS := ((FS.new "d" 2 1 0).createFile "/f" "a" none none 0).2

/-- The `DiskFull`-failing call `writeFile("/f", "xyz")` on `fsWriteFull`. -/
def fsWriteFullRes : Except Err FSNode × FS := fsWriteFull.writeFile "/f" "xyz" 1

/-- Volume holding files `/a` and `/b` (move/copy destination-file probes). -/
def fsTwoFiles : FS :=
  (((FS.new "d" 8 4 0).createFile "/a" "A" none none 0).2.createFile "/b" "B" none none 0).2

/-- Volume with directory `/d` containing files `a` = `"x"` and `b` = `"y"`,
after `copy("/d", "/c")` (deep-copy collapse probe). -/
def fsCopyDir : FS :=
  (((((FS.new "d" 8 4 0).createDirectory "/d" none none 0).2.createFile
      "/d/a" "x" none none 0).2.createFile "/d/b" "y" none none 0).2.copy "/d" "/c" 1).2

/-- Volume where `rename("/d", "..")` created a root child literally named
`".."` holding a file `x` = `"old2"`, next to a file `/x` = `"old1"`. -/
def fsDotDot : FS :=
  ((((((FS.new "d" 8 4 0).createFile "/x" "old1" none none 0).2.createDirectory
      "/d" none none 0).2.createFile "/d/x" "old2" none none 0).2).rename "/d" ".." 1).2

/-- The succeeding-but-misdirected `writeFile("../x", "NEW")` on `fsDotDot`. -/
def fsDotDotRes : Except Err FSNode × FS := fsDotDot.writeFile "../x" "NEW" 2

/-- One-block volume holding `/x` = `"a"`, then `format()` without
`zeroBlocks`. -/
def fsFormatStale : FS := (((FS.new "d" 1 4 0).createFile "/x" "a" none none 0).2).format false 1

/-- An eight-block secondary volume. -/
def usbFS : FS := FS.new "usb" 8 4 0

/-- The manager with `usbFS` mounted at `/mnt/usb`. -/
def vfsUsb : VFS := ((VFS.new 0).mount usbFS "/mnt/usb").2

/-- The manager with `usbFS` mounted at the pathological point `".."`, which
`mount` normalizes to the mount path `"/.."`. -/
def vfsDotDot : VFS := ((VFS.new 0).mount usbFS "..").2

/- ======================== claim theorems ======================== -/

/-- C7: the claim says path normalization maps an empty or falsy input to `/`
(returning the root path rather than failing).  Evaluating the code at the
failing input: `normalizePath("")` THROWS the bare string `"/"` — the source
reads `if (!p) throw p = "/"`, throwing the value of the assignment
expression instead of assigning.  The second and third conjuncts confirm the
collapsing behavior on non-empty input that the rest of the claim describes. -/
theorem C7_normalizePath_empty_throws :
    normalizePath "" = .error (.thrownString "/") ∧
    normalizePath "a/../b" = .ok "/b" ∧
    posixNormalize "/a//b/./c/../d" = "/a/b/d" :=
  ⟨rfl, rfl, rfl⟩

/-- C3: the claim says move/copy onto an existing File fails with
`InvalidDestination` as distinct from `AlreadyExists`.  Evaluating the code on
a volume with files `/a` and `/b`: both `move("/a","/b")` and
`copy("/a","/b")` fail with "Destination entry already exists" (the
`AlreadyExists` message) — the dedicated "Destination exists and is not a
directory" throw sits inside its own `try` block and is swallowed by the
`catch`, which then falls through to `resolveParent` and hits the occupied
name check. -/
theorem C3_move_copy_onto_file_yield_alreadyExists :
    (fsTwoFiles.move "/a" "/b" 1).1 = .error .destEntryExists ∧
    (fsTwoFiles.copy "/a" "/b" 1).1 = .error .destEntryExists ∧
    Err.destEntryExists ≠ Err.destExistsNotDir :=
  ⟨rfl, rfl, by decide⟩

/-- C4: the claim says `copy` clones every child under that child's own name.
Evaluating the code: copying directory `/d` (children `a` = "x", `b` = "y")
to `/c` produces a directory with a SINGLE child named `"c"` holding `"y"` —
`cloneRec` names every nested clone after the top-level destination and keys
children by that name, so sibling clones collide and overwrite each other.
The original children names do not exist under the copy. -/
theorem C4_copy_collapses_children :
    (fsCopyDir.listDirectory "/c").1 =
      .ok [⟨"c", "file", some 1, ⟨1, 1, "root", "rw-r--r--"⟩⟩] ∧
    (fsCopyDir.readFile "/c/c").1 = .ok "y" ∧
    (fsCopyDir.readFile "/c/a").1 = .error (.pathDoesNotExist "a") ∧
    (fsCopyDir.readFile "/c/b").1 = .error (.pathDoesNotExist "b") ∧
    (fsCopyDir.readFile "/d/a").1 = .ok "x" ∧
    (fsCopyDir.readFile "/d/b").1 = .ok "y" :=
  ⟨rfl, rfl, rfl, rfl, rfl, rfl⟩

/-- C1 counterexample: the claim says that after a mid-way `DiskFull` in
`writeFile` the file "is left with no blocks and zero content (its block list
is empty ...)".  On a 2-block volume (`blockSize = 1`) holding `/f` = "a",
`writeFile("/f", "xyz")` fails with `DiskFull`, yet the file still carries
its STALE block list `[0]` and stale size `1` — only reading yields `""`
because the listed block has been freed. -/
theorem C1_counterexample_stale_block_list :
    fsWriteFullRes.1 = .error .diskFullWrite ∧
    fsWriteFullRes.2.getNode "/f" =
      .ok (.file "f" [0] 1 ⟨0, 0, "root", "rw-r--r--"⟩) ∧
    ([0] : List Nat) ≠ [] ∧ (1 : Nat) ≠ 0 ∧
    (fsWriteFullRes.2.readFile "/f").1 = .ok "" :=
  ⟨rfl, rfl, by decide, by decide, rfl⟩

/-- C5 counterexample: the claim quantifies over every path at which a file
exists.  On `fsDotDot` (where `rename` created a root child literally named
`".."` containing `x` = "old2", and `/x` = "old1" also exists), the path
`"../x"` resolves to a file, `writeFile("../x", "NEW")` succeeds — but, due
to `writeFile`'s double normalization, it writes `/x`; `readFile("../x")`
afterwards still returns "old2" ≠ "NEW", refuting the round-trip. -/
theorem C5_counterexample_roundtrip_broken :
    fsDotDotRes.1 = .ok (.file "x" [0] 3 ⟨0, 2, "root", "rw-r--r--"⟩) ∧
    (fsDotDotRes.2.readFile "../x").1 = .ok "old2" ∧
    (fsDotDotRes.2.readFile "/x").1 = .ok "NEW" ∧
    ("old2" : String) ≠ "NEW" :=
  ⟨rfl, rfl, rfl, by decide⟩

/-- C6 counterexample: the claim says `resolve` returns the stripped
remainder of the matched mount path.  Mounting at `".."` (which `mount`
normalizes to the mount path `"/.."`) and resolving `"../.."` (normalized
`"/../.."`) matches that mount, and the code returns inner path `"/"` — the
RE-NORMALIZED remainder — whereas stripping the prefix from the normalized
path leaves `"/.."`. -/
theorem C6_counterexample_inner_is_renormalized :
    vfsDotDot.resolve "../.." = .ok (⟨"/..", usbFS⟩, "/") ∧
    strDrop "/../.." (strLen "/..") = "/.." ∧
    ("/" : String) ≠ "/.." :=
  ⟨rfl, rfl, by decide⟩

/-- C8 counterexample: the claim says the free-blocks-are-empty invariant is
preserved by `format` with or without the `zeroBlocks` option.  On a 1-block
volume holding `/x` = "a", `format()` WITHOUT `zeroBlocks` frees block 0 but
leaves its chunk `"a"` in place, breaking the invariant. -/
theorem C8_counterexample_format_keeps_stale_chunk :
    fsFormatStale.freeBlockMap = [0] ∧
    fsFormatStale.blocks = ["a"] ∧
    ¬ FreeClean fsFormatStale :=
  ⟨rfl, rfl, fun h => absurd (h 0 (by decide) rfl) (by decide)⟩

/-- C9: the read-only operations `readFile`, `listDirectory`, `stat` and
`search` leave the volume state (tree, metadata, occupancy table, block
contents, free count) unchanged, whether they succeed or fail: in the
embedding each returns the input state verbatim on every branch. -/
theorem C9_read_ops_leave_state_unchanged (fs : FS) (p1 p2 p3 p4 : String)
    (pred : FSNode → String → Bool) :
    (fs.readFile p1).2 = fs ∧ (fs.listDirectory p2).2 = fs ∧
    (fs.stat p3).2 = fs ∧ (fs.search p4 pred).2 = fs := by
  refine ⟨?_, ?_, ?_, ?_⟩
  · unfold FS.readFile
    split <;> rfl
  · unfold FS.listDirectory
    split <;> rfl
  · unfold FS.stat
    split <;> rfl
  · unfold FS.search
    split
    · rfl
    · rfl
    · split <;> rfl

/- ---------------------- helper lemmas: list indexing ---------------------- -/

theorem listIdxD_ge {a : Type} (d : a) : ∀ (l : List a) (i : Nat),
    l.length ≤ i → listIdxD d l i = d := by
  intro l
  induction l with
  | nil => intro i _; rfl
  | cons x rest ih =>
    intro i hi
    cases i with
    | zero => simp at hi
    | succ n => exact ih n (by simpa using hi)

theorem listIdxD_set_self {a : Type} (d v : a) : ∀ (l : List a) (i : Nat),
    i < l.length → listIdxD d (l.set i v) i = v := by
  intro l
  induction l with
  | nil => intro i hi; simp at hi
  | cons x rest ih =>
    intro i hi
    cases i with
    | zero => rfl
    | succ n => exact ih n (by simpa using hi)

theorem listIdxD_set_ne {a : Type} (d v : a) : ∀ (l : List a) (i j : Nat),
    i ≠ j → listIdxD d (l.set i v) j = listIdxD d l j := by
  intro l
  induction l with
  | nil => intro i j _; rfl
  | cons x rest ih =>
    intro i j hij
    cases i with
    | zero =>
      cases j with
      | zero => exact absurd rfl hij
      | succ m => rfl
    | succ n =>
      cases j with
      | zero => rfl
      | succ m => exact ih n m (fun hc => hij (by rw [hc]))

theorem listIdxD_replicate {a : Type} (d v : a) : ∀ (n i : Nat),
    listIdxD d (List.replicate n v) i = if i < n then v else d := by
  intro n
  induction n with
  | zero => intro i; simp [List.replicate, listIdxD]
  | succ m ih =>
    intro i
    cases i with
    | zero => simp [List.replicate, listIdxD]
    | succ k => simpa [List.replicate, listIdxD, Nat.succ_lt_succ_iff] using ih k

/- ---------------------- helper lemmas: first-fit allocation ---------------------- -/

theorem firstFree_lt : ∀ (l : List Nat) (i : Nat),
    firstFree l = some i → i < l.length := by
  intro l
  induction l with
  | nil => intro i hi; simp [firstFree] at hi
  | cons v rest ih =>
    intro i hi
    by_cases hv : v = 0
    · subst hv
      simp only [firstFree, if_pos rfl] at hi
      cases hi
      simp
    · simp only [firstFree, if_neg hv, Option.map_eq_some'] at hi
      obtain ⟨j, hj, rfl⟩ := hi
      simpa [Nat.succ_lt_succ_iff] using ih j hj

theorem firstFree_idx : ∀ (l : List Nat) (i : Nat),
    firstFree l = some i → listIdxD 1 l i = 0 := by
  intro l
  induction l with
  | nil => intro i hi; simp [firstFree] at hi
  | cons v rest ih =>
    intro i hi
    by_cases hv : v = 0
    · subst hv
      simp only [firstFree, if_pos rfl] at hi
      cases hi
      rfl
    · simp only [firstFree, if_neg hv, Option.map_eq_some'] at hi
      obtain ⟨j, hj, rfl⟩ := hi
      exact ih j hj

/- ---------------------- helper lemmas: freeBlock ---------------------- -/

theorem freeBlock_frame (fs : FS) (b : Nat) :
    (fs.freeBlock b).name = fs.name ∧
    (fs.freeBlock b).totalBlocks = fs.totalBlocks ∧
    (fs.freeBlock b).blockSize = fs.blockSize ∧
    (fs.freeBlock b).root = fs.root ∧
    (fs.freeBlock b).freeBlockMap.length = fs.freeBlockMap.length ∧
    (fs.freeBlock b).blocks.length = fs.blocks.length := by
  unfold FS.freeBlock
  split <;> simp

theorem freeBlock_map_other (fs : FS) (b i : Nat) (h : i ≠ b) :
    listIdxD 1 (fs.freeBlock b).freeBlockMap i = listIdxD 1 fs.freeBlockMap i := by
  unfold FS.freeBlock
  split
  · exact listIdxD_set_ne 1 0 fs.freeBlockMap b i (fun hc => h hc.symm)
  · rfl

theorem freeBlock_blocks_other (fs : FS) (b i : Nat) (h : i ≠ b) :
    listIdxD "" (fs.freeBlock b).blocks i = listIdxD "" fs.blocks i := by
  unfold FS.freeBlock
  split
  · exact listIdxD_set_ne "" "" fs.blocks b i (fun hc => h hc.symm)
  · rfl

theorem freeBlock_blocks_self (fs : FS) (b : Nat) (hb : b < fs.totalBlocks) :
    listIdxD "" (fs.freeBlock b).blocks b = "" := by
  unfold FS.freeBlock
  rw [if_pos hb]
  by_cases hl : b < fs.blocks.length
  · exact listIdxD_set_self "" "" fs.blocks b hl
  · refine listIdxD_ge "" _ b ?_
    simpa using Nat.le_of_not_lt hl

theorem freeBlock_blocks_pointwise (fs : FS) (b i : Nat) :
    listIdxD "" (fs.freeBlock b).blocks i = listIdxD "" fs.blocks i ∨
    listIdxD "" (fs.freeBlock b).blocks i = "" := by
  by_cases h : i = b
  · subst h
    by_cases hb : i < fs.totalBlocks
    · exact Or.inr (freeBlock_blocks_self fs i hb)
    · left
      unfold FS.freeBlock
      rw [if_neg hb]
  · exact Or.inl (freeBlock_blocks_other fs b i h)

theorem freeBlock_map_in_range (fs : FS) (b : Nat) (hb : b < fs.totalBlocks) :
    (fs.freeBlock b).freeBlockMap = fs.freeBlockMap.set b 0 := by
  unfold FS.freeBlock
  rw [if_pos hb]

/- ---------------------- helper lemmas: folded frees ---------------------- -/

theorem foldl_freeBlock_frame : ∀ (l : List Nat) (fs : FS),
    (l.foldl FS.freeBlock fs).name = fs.name ∧
    (l.foldl FS.freeBlock fs).totalBlocks = fs.totalBlocks ∧
    (l.foldl FS.freeBlock fs).blockSize = fs.blockSize ∧
    (l.foldl FS.freeBlock fs).root = fs.root ∧
    (l.foldl FS.freeBlock fs).freeBlockMap.length = fs.freeBlockMap.length ∧
    (l.foldl FS.freeBlock fs).blocks.length = fs.blocks.length := by
  intro l
  induction l with
  | nil => intro fs; exact ⟨rfl, rfl, rfl, rfl, rfl, rfl⟩
  | cons b rest ih =>
    intro fs
    have h1 := freeBlock_frame fs b
    have h2 := ih (fs.freeBlock b)
    simp only [List.foldl_cons]
    exact ⟨h2.1.trans h1.1, h2.2.1.trans h1.2.1, h2.2.2.1.trans h1.2.2.1,
      h2.2.2.2.1.trans h1.2.2.2.1, h2.2.2.2.2.1.trans h1.2.2.2.2.1,
      h2.2.2.2.2.2.trans h1.2.2.2.2.2⟩

theorem foldl_freeBlock_blocks_pointwise : ∀ (l : List Nat) (fs : FS) (i : Nat),
    listIdxD "" (l.foldl FS.freeBlock fs).blocks i = listIdxD "" fs.blocks i ∨
    listIdxD "" (l.foldl FS.freeBlock fs).blocks i = "" := by
  intro l
  induction l with
  | nil => intro fs i; exact Or.inl rfl
  | cons b rest ih =>
    intro fs i
    simp only [List.foldl_cons]
    rcases ih (fs.freeBlock b) i with h | h
    · rw [h]
      exact freeBlock_blocks_pointwise fs b i
    · exact Or.inr h

theorem foldl_freeBlock_keeps_empty : ∀ (l : List Nat) (fs : FS) (i : Nat),
    listIdxD "" fs.blocks i = "" →
    listIdxD "" (l.foldl FS.freeBlock fs).blocks i = "" := by
  intro l
  induction l with
  | nil => intro fs i h; exact h
  | cons b rest ih =>
    intro fs i h
    simp only [List.foldl_cons]
    refine ih (fs.freeBlock b) i ?_
    rcases freeBlock_blocks_pointwise fs b i with h2 | h2
    · rw [h2, h]
    · exact h2

theorem foldl_freeBlock_blocks_mem : ∀ (l : List Nat) (fs : FS) (b : Nat),
    b ∈ l → b < fs.totalBlocks →
    listIdxD "" (l.foldl FS.freeBlock fs).blocks b = "" := by
  intro l
  induction l with
  | nil => intro fs b hb; simp at hb
  | cons a rest ih =>
    intro fs b hb hlt
    simp only [List.foldl_cons]
    rcases List.mem_cons.mp hb with heq | hmem
    · subst heq
      exact foldl_freeBlock_keeps_empty rest (fs.freeBlock b) b
        (freeBlock_blocks_self fs b hlt)
    · exact ih (fs.freeBlock a) b hmem (by rw [(freeBlock_frame fs a).2.1]; exact hlt)

theorem foldl_freeBlock_map : ∀ (l : List Nat) (fs : FS),
    (∀ b ∈ l, b < fs.totalBlocks) →
    (l.foldl FS.freeBlock fs).freeBlockMap = setZeros l fs.freeBlockMap := by
  intro l
  induction l with
  | nil => intro fs _; rfl
  | cons a rest ih =>
    intro fs hall
    have ha : a < fs.totalBlocks := hall a (List.mem_cons_self a rest)
    simp only [List.foldl_cons, setZeros, List.foldl_cons]
    rw [← setZeros]
    rw [ih (fs.freeBlock a)
      (fun b hb => by rw [(freeBlock_frame fs a).2.1]; exact hall b (List.mem_cons_of_mem a hb))]
    rw [freeBlock_map_in_range fs a ha]

/- ---------------------- helper lemmas: allocateBlock ---------------------- -/

theorem allocateBlock_none (fs : FS) (fs1 : FS)
    (h : fs.allocateBlock = (none, fs1)) : fs1 = fs := by
  unfold FS.allocateBlock at h
  split at h
  · injection h with h1 h2
    exact h2.symm
  · injection h with h1 h2
    exact Option.noConfusion h1

theorem allocateBlock_some (fs fs1 : FS) (b : Nat)
    (h : fs.allocateBlock = (some b, fs1)) :
    firstFree fs.freeBlockMap = some b ∧
    fs1 = { fs with freeBlockMap := fs.freeBlockMap.set b 1
                    blocks := fs.blocks.set b "" } := by
  unfold FS.allocateBlock at h
  split at h
  · injection h with h1 h2
    exact Option.noConfusion h1
  case _ idx heq =>
    injection h with h1 h2
    injection h1 with h1
    subst h1
    exact ⟨heq, h2.symm⟩

/- ---------------------- helper lemmas: setZeros ---------------------- -/

theorem listIdxD_ext {a : Type} (d : a) : ∀ (l1 l2 : List a),
    l1.length = l2.length →
    (∀ i, i < l1.length → listIdxD d l1 i = listIdxD d l2 i) → l1 = l2 := by
  intro l1
  induction l1 with
  | nil =>
    intro l2 hlen _
    cases l2 with
    | nil => rfl
    | cons y ys => simp at hlen
  | cons x xs ih =>
    intro l2 hlen hidx
    cases l2 with
    | nil => simp at hlen
    | cons y ys =>
      have hx : x = y := hidx 0 (by simp)
      have hrest : xs = ys := by
        refine ih ys (by simpa using hlen) ?_
        intro i hi
        exact hidx (i + 1) (by simpa [Nat.succ_lt_succ_iff] using hi)
      rw [hx, hrest]

theorem setZeros_length : ∀ (l : List Nat) (m : List Nat),
    (setZeros l m).length = m.length := by
  intro l
  induction l with
  | nil => intro m; rfl
  | cons a rest ih =>
    intro m
    simp only [setZeros, List.foldl_cons]
    rw [← setZeros]
    rw [ih (m.set a 0)]
    exact List.length_set m a 0

theorem setZeros_idx : ∀ (l : List Nat) (m : List Nat) (i : Nat),
    listIdxD 1 (setZeros l m) i =
      if i ∈ l ∧ i < m.length then 0 else listIdxD 1 m i := by
  intro l
  induction l with
  | nil => intro m i; simp [setZeros]
  | cons a rest ih =>
    intro m i
    simp only [setZeros, List.foldl_cons]
    rw [← setZeros]
    rw [ih (m.set a 0) i, List.length_set]
    by_cases hlt : i < m.length
    · by_cases hmem : i ∈ rest
      · simp [hmem, hlt]
      · by_cases hia : i = a
        · subst hia
          simp only [hmem, false_and, if_false]
          rw [listIdxD_set_self 1 0 m i hlt]
          simp [hlt]
        · simp only [hmem, false_and, if_false]
          rw [listIdxD_set_ne 1 0 m a i (fun hc => hia hc.symm)]
          rw [if_neg (fun hc =>
            (List.mem_cons.mp hc.1).elim (fun h => hia h) (fun h => hmem h))]
    · have h1 : listIdxD 1 (m.set a 0) i = listIdxD 1 m i := by
        by_cases hia : i = a
        · subst hia
          rw [listIdxD_ge 1 _ i (by rw [List.length_set]; exact Nat.le_of_not_lt hlt),
            listIdxD_ge 1 m i (Nat.le_of_not_lt hlt)]
        · exact listIdxD_set_ne 1 0 m a i (fun hc => hia hc.symm)
      simp [hlt, h1]

/- ---------------------- helper lemmas: the allocation loop ---------------------- -/

/-- Conclusions of the rollback path, packaged for the state
`acc.foldl FS.freeBlock fs`. -/
theorem rollback_pack (fs : FS) (acc : List Nat)
    (hacc : ∀ b ∈ acc, b < fs.totalBlocks) :
    (acc.foldl FS.freeBlock fs).freeBlockMap = setZeros acc fs.freeBlockMap ∧
    (∀ b ∈ acc, listIdxD "" (acc.foldl FS.freeBlock fs).blocks b = "") ∧
    (∀ i, listIdxD "" (acc.foldl FS.freeBlock fs).blocks i = listIdxD "" fs.blocks i ∨
      listIdxD "" (acc.foldl FS.freeBlock fs).blocks i = "") ∧
    (acc.foldl FS.freeBlock fs).root = fs.root ∧
    (acc.foldl FS.freeBlock fs).totalBlocks = fs.totalBlocks ∧
    (acc.foldl FS.freeBlock fs).name = fs.name ∧
    (acc.foldl FS.freeBlock fs).blockSize = fs.blockSize ∧
    (acc.foldl FS.freeBlock fs).freeBlockMap.length = fs.freeBlockMap.length ∧
    (acc.foldl FS.freeBlock fs).blocks.length = fs.blocks.length := by
  obtain ⟨f1, f2, f3, f4, f5, f6⟩ := foldl_freeBlock_frame acc fs
  exact ⟨foldl_freeBlock_map acc fs hacc,
    fun b hb => foldl_freeBlock_blocks_mem acc fs b hb (hacc b hb),
    fun i => foldl_freeBlock_blocks_pointwise acc fs i,
    f4, f2, f1, f3, f5, f6⟩

/-- Rollback behavior of the chunk-and-allocate loop: when it reports
`DiskFull` (result `none`), the occupancy map equals the input map with the
incoming accumulator freed (so for a fresh call, the map is restored
exactly), every accumulated block's chunk is empty, every other chunk is
either untouched or empty, and the tree and geometry are untouched. -/
theorem allocChunksF_none (bs : Nat) (c : String) : ∀ (fuel : Nat) (fs : FS)
    (cursor : Nat) (acc : List Nat) (fs2 : FS),
    allocChunksF bs c fuel fs cursor acc = (none, fs2) →
    fs.freeBlockMap.length = fs.totalBlocks →
    (∀ b ∈ acc, b < fs.totalBlocks) →
    fs2.freeBlockMap = setZeros acc fs.freeBlockMap ∧
    (∀ b ∈ acc, listIdxD "" fs2.blocks b = "") ∧
    (∀ i, listIdxD "" fs2.blocks i = listIdxD "" fs.blocks i ∨
      listIdxD "" fs2.blocks i = "") ∧
    fs2.root = fs.root ∧ fs2.totalBlocks = fs.totalBlocks ∧
    fs2.name = fs.name ∧ fs2.blockSize = fs.blockSize ∧
    fs2.freeBlockMap.length = fs.freeBlockMap.length ∧
    fs2.blocks.length = fs.blocks.length := by
  intro fuel
  induction fuel with
  | zero =>
    intro fs cursor acc fs2 h hwf hacc
    simp only [allocChunksF] at h
    injection h with h1 h2
    subst h2
    exact rollback_pack fs acc hacc
  | succ fuel ih =>
    intro fs cursor acc fs2 h hwf hacc
    simp only [allocChunksF] at h
    split at h
    · split at h
      case _ fs1 heq =>
        have hfs1 : fs1 = fs := allocateBlock_none fs fs1 heq
        subst hfs1
        injection h with h1 h2
        subst h2
        exact rollback_pack fs1 acc hacc
      case _ b fs1 heq =>
        obtain ⟨hff, hfs1⟩ := allocateBlock_some fs fs1 b heq
        subst hfs1
        rw [List.set_set] at h
        have hblen : b < fs.freeBlockMap.length := firstFree_lt _ _ hff
        have hb0 : listIdxD 1 fs.freeBlockMap b = 0 := firstFree_idx _ _ hff
        have hbtb : b < fs.totalBlocks := hwf ▸ hblen
        obtain ⟨hmap, hmem, hpw, hroot, htb, hname, hbsz, hmlen, hblkl⟩ :=
          ih _ (cursor + bs) (acc ++ [b]) fs2 h
            (by simpa using hwf)
            (by
              intro x hx
              rcases List.mem_append.mp hx with hx | hx
              · exact hacc x hx
              · simp at hx
                subst hx
                exact hbtb)
        simp only [List.length_set] at hmlen hblkl
        refine ⟨?_, ?_, ?_, hroot, htb, hname, hbsz, ?_, hblkl⟩
        · refine listIdxD_ext 1 _ _ ?_ ?_
          · rw [hmap, setZeros_length, List.length_set, setZeros_length]
          · intro i hi
            have hi' : i < fs.freeBlockMap.length := by
              rw [← hmlen]
              exact hi
            rw [hmap, setZeros_idx, setZeros_idx, List.length_set]
            by_cases hiacc : i ∈ acc
            · rw [if_pos ⟨List.mem_append.mpr (Or.inl hiacc), hi'⟩,
                if_pos ⟨hiacc, hi'⟩]
            · by_cases hib : i = b
              · subst hib
                rw [if_pos ⟨List.mem_append.mpr (Or.inr (by simp)), hi'⟩,
                  if_neg (fun hc => hiacc hc.1), hb0]
              · rw [if_neg (fun hc => by
                    rcases List.mem_append.mp hc.1 with hx | hx
                    · exact hiacc hx
                    · simp at hx
                      exact hib hx),
                  if_neg (fun hc => hiacc hc.1)]
                exact listIdxD_set_ne 1 1 fs.freeBlockMap b i (fun hc => hib hc.symm)
        · intro x hx
          exact hmem x (List.mem_append.mpr (Or.inl hx))
        · intro i
          by_cases hib : i = b
          · subst hib
            exact Or.inr (hmem i (List.mem_append.mpr (Or.inr (by simp))))
          · rcases hpw i with hp | hp
            · rw [hp]
              exact Or.inl (listIdxD_set_ne "" _ fs.blocks b i (fun hc => hib hc.symm))
            · exact Or.inr hp
        · rw [hmlen]
    · injection h with h1 h2
      exact Option.noConfusion h1

theorem strTake_append_strDrop (s : String) (n : Nat) :
    strTake s n ++ strDrop s n = s := by
  show String.mk (s.data.take n) ++ String.mk (s.data.drop n) = s
  have h : String.mk (s.data.take n) ++ String.mk (s.data.drop n) =
      String.mk (s.data.take n ++ s.data.drop n) := rfl
  rw [h, List.take_append_drop]

theorem strDrop_add (s : String) (n m : Nat) :
    strDrop s (n + m) = strDrop (strDrop s n) m := by
  show String.mk (s.data.drop (n + m)) = String.mk ((s.data.drop n).drop m)
  rw [List.drop_drop]

theorem strDrop_of_le (s : String) (n : Nat) (h : strLen s ≤ n) :
    strDrop s n = "" := by
  show String.mk (s.data.drop n) = ""
  rw [List.drop_eq_nil_of_le h]

theorem strDrop_zero (s : String) : strDrop s 0 = s := rfl

/-- Success behavior of the chunk-and-allocate loop: the returned block list
extends the accumulator by fresh blocks whose chunks, concatenated in order,
reconstruct the remaining content; blocks occupied at entry keep their chunk
and stay occupied; tree and geometry are untouched. -/
theorem allocChunksF_some (bs : Nat) (c : String) : ∀ (fuel : Nat) (fs : FS)
    (cursor : Nat) (acc blocks : List Nat) (fs2 : FS),
    allocChunksF bs c fuel fs cursor acc = (some blocks, fs2) →
    fs.blocks.length = fs.freeBlockMap.length →
    (∃ suffix, blocks = acc ++ suffix ∧
      strJoin (suffix.map (listIdxD "" fs2.blocks)) = strDrop c cursor) ∧
    (∀ i, listIdxD 1 fs.freeBlockMap i ≠ 0 →
      listIdxD "" fs2.blocks i = listIdxD "" fs.blocks i ∧
      listIdxD 1 fs2.freeBlockMap i ≠ 0) ∧
    fs2.root = fs.root ∧ fs2.totalBlocks = fs.totalBlocks ∧
    fs2.name = fs.name ∧ fs2.blockSize = fs.blockSize ∧
    fs2.freeBlockMap.length = fs.freeBlockMap.length ∧
    fs2.blocks.length = fs.blocks.length := by
  intro fuel
  induction fuel with
  | zero =>
    intro fs cursor acc blocks fs2 h _
    simp only [allocChunksF] at h
    injection h with h1 h2
    exact Option.noConfusion h1
  | succ fuel ih =>
    intro fs cursor acc blocks fs2 h hlen
    simp only [allocChunksF] at h
    split at h
    case isTrue hcur =>
      split at h
      case _ fs1 heq =>
        injection h with h1 h2
        exact Option.noConfusion h1
      case _ b fs1 heq =>
        obtain ⟨hff, hfs1⟩ := allocateBlock_some fs fs1 b heq
        subst hfs1
        rw [List.set_set] at h
        have hblen : b < fs.freeBlockMap.length := firstFree_lt _ _ hff
        have hb0 : listIdxD 1 fs.freeBlockMap b = 0 := firstFree_idx _ _ hff
        have hbb : b < fs.blocks.length := hlen ▸ hblen
        obtain ⟨⟨suffix', hsfx, hjoin⟩, hocc, hroot, htb, hname, hbsz, hmlen, hblkl⟩ :=
          ih _ (cursor + bs) (acc ++ [b]) blocks fs2 h (by simp [hlen])
        simp only [List.length_set] at hmlen hblkl
        have hmidb : listIdxD 1 (fs.freeBlockMap.set b 1) b ≠ 0 := by
          rw [listIdxD_set_self 1 1 fs.freeBlockMap b hblen]
          exact one_ne_zero
        obtain ⟨hchunk, _⟩ := hocc b hmidb
        rw [listIdxD_set_self "" _ fs.blocks b hbb] at hchunk
        refine ⟨⟨b :: suffix', ?_, ?_⟩, ?_, hroot, htb, hname, hbsz, hmlen, hblkl⟩
        · rw [hsfx]
          simp
        · simp only [List.map_cons, strJoin]
          rw [hchunk, hjoin, strDrop_add c cursor bs]
          exact strTake_append_strDrop (strDrop c cursor) bs
        · intro i hi
          have hib : i ≠ b := fun hc => hi (hc ▸ hb0)
          have hmid : listIdxD 1 (fs.freeBlockMap.set b 1) i ≠ 0 := by
            rw [listIdxD_set_ne 1 1 fs.freeBlockMap b i (fun hc => hib hc.symm)]
            exact hi
          obtain ⟨h1, h2⟩ := hocc i hmid
          rw [listIdxD_set_ne "" _ fs.blocks b i (fun hc => hib hc.symm)] at h1
          exact ⟨h1, h2⟩
    case isFalse hcur =>
      injection h with h1 h2
      injection h1 with h1
      subst h1
      subst h2
      refine ⟨⟨[], by simp, ?_⟩, fun i hi => ⟨rfl, hi⟩, rfl, rfl, rfl, rfl, rfl, rfl⟩
      rw [strDrop_of_le c cursor (Nat.le_of_not_lt hcur)]
      rfl

/- ---------------------- helper lemmas: the free-block invariant ---------------------- -/

theorem freeClean_freeBlock (fs : FS) (b : Nat) (h : FreeClean fs) :
    FreeClean (fs.freeBlock b) := by
  intro i hi hz
  rw [(freeBlock_frame fs b).2.2.2.2.1] at hi
  by_cases hib : i = b
  · subst hib
    by_cases htb : i < fs.totalBlocks
    · exact freeBlock_blocks_self fs i htb
    · unfold FS.freeBlock at hz ⊢
      rw [if_neg htb] at hz ⊢
      exact h i hi hz
  · rw [freeBlock_blocks_other fs b i hib]
    refine h i hi ?_
    rw [← freeBlock_map_other fs b i hib]
    exact hz

theorem freeClean_foldl_freeBlock : ∀ (l : List Nat) (fs : FS),
    FreeClean fs → FreeClean (l.foldl FS.freeBlock fs) := by
  intro l
  induction l with
  | nil => intro fs h; exact h
  | cons b rest ih =>
    intro fs h
    exact ih (fs.freeBlock b) (freeClean_freeBlock fs b h)

theorem freeClean_allocateBlock (fs fs1 : FS) (r : Option Nat)
    (h : fs.allocateBlock = (r, fs1)) (hc : FreeClean fs) : FreeClean fs1 := by
  cases r with
  | none => rw [allocateBlock_none fs fs1 h]; exact hc
  | some b =>
    obtain ⟨hff, hfs1⟩ := allocateBlock_some fs fs1 b h
    subst hfs1
    intro i hi hz
    simp only [List.length_set] at hi
    by_cases hib : i = b
    · subst hib
      by_cases hbl : i < fs.blocks.length
      · exact listIdxD_set_self "" "" fs.blocks i hbl
      · exact listIdxD_ge "" _ i (by rw [List.length_set]; exact Nat.le_of_not_lt hbl)
    · rw [listIdxD_set_ne "" "" fs.blocks b i (fun hcc => hib hcc.symm)]
      refine hc i hi ?_
      rw [← listIdxD_set_ne 1 1 fs.freeBlockMap b i (fun hcc => hib hcc.symm)]
      exact hz

/-- The chunk-and-allocate loop preserves the free-blocks-are-empty
invariant on both its outcomes. -/
theorem freeClean_allocChunksF (bs : Nat) (c : String) : ∀ (fuel : Nat) (fs : FS)
    (cursor : Nat) (acc : List Nat) (r : Option (List Nat)) (fs2 : FS),
    allocChunksF bs c fuel fs cursor acc = (r, fs2) →
    FreeClean fs → FreeClean fs2 := by
  intro fuel
  induction fuel with
  | zero =>
    intro fs cursor acc r fs2 h hc
    simp only [allocChunksF] at h
    injection h with h1 h2
    subst h2
    exact freeClean_foldl_freeBlock acc fs hc
  | succ fuel ih =>
    intro fs cursor acc r fs2 h hc
    simp only [allocChunksF] at h
    split at h
    · split at h
      case _ fs1 heq =>
        injection h with h1 h2
        subst h2
        rw [allocateBlock_none fs fs1 heq]
        exact freeClean_foldl_freeBlock acc fs hc
      case _ b fs1 heq =>
        obtain ⟨hff, hfs1⟩ := allocateBlock_some fs fs1 b heq
        subst hfs1
        rw [List.set_set] at h
        refine ih _ (cursor + bs) (acc ++ [b]) r fs2 h ?_
        intro i hi hz
        simp only [List.length_set] at hi
        by_cases hib : i = b
        · subst hib
          rw [listIdxD_set_self 1 1 fs.freeBlockMap i
            (firstFree_lt _ _ hff)] at hz
          exact absurd hz one_ne_zero
        · show listIdxD "" (fs.blocks.set b (strTake (strDrop c cursor) bs)) i = ""
          rw [listIdxD_set_ne "" _ fs.blocks b i (fun hcc => hib hcc.symm)]
          refine hc i hi ?_
          rw [← listIdxD_set_ne 1 1 fs.freeBlockMap b i (fun hcc => hib hcc.symm)]
          exact hz
    · injection h with h1 h2
      subst h2
      exact hc

/- ---------------------- helper lemmas: tree walk and update ---------------------- -/

theorem lookup_setChild_self : ∀ (ch : List (String × FSNode)) (k : String) (v : FSNode),
    lookupChild (setChild ch k v) k = some v := by
  intro ch
  induction ch with
  | nil => intro k v; simp [setChild, lookupChild]
  | cons kv rest ih =>
    intro k v
    obtain ⟨k0, v0⟩ := kv
    by_cases hk : k0 = k
    · simp [setChild, hk, lookupChild]
    · simp only [setChild, if_neg hk, lookupChild]
      exact ih k v

theorem walkNode_updateNodeAt (f : FSNode → FSNode) : ∀ (segs : List String)
    (root n : FSNode), walkNode root segs = .ok n →
    walkNode (updateNodeAt root segs f) segs = .ok (f n) := by
  intro segs
  induction segs with
  | nil =>
    intro root n h
    simp only [walkNode] at h
    injection h with h
    subst h
    simp [walkNode, updateNodeAt]
  | cons s rest ih =>
    intro root n h
    cases root with
    | file nm bs sz m => simp [walkNode] at h
    | dir nm ch m =>
      simp only [walkNode] at h
      split at h
      · exact Except.noConfusion h
      case _ child heq =>
        simp only [updateNodeAt, heq, walkNode, lookup_setChild_self]
        exact ih child n h

/- ---------------------- helper lemmas: error shapes ---------------------- -/

theorem normalizePath_error (p : String) (e : Err)
    (h : normalizePath p = .error e) : e = .thrownString "/" := by
  unfold normalizePath at h
  split at h
  · injection h with h
    exact h.symm
  · exact Except.noConfusion h

theorem walkDirs_error : ∀ (parts : List String) (n : FSNode) (done : List String)
    (e : Err), walkDirs n done parts = .error e → ∃ s, e = .dirNotFound s := by
  intro parts
  induction parts with
  | nil => intro n done e h; exact Except.noConfusion h
  | cons part rest ih =>
    intro n done e h
    simp only [walkDirs] at h
    split at h
    · exact ih _ _ e h
    · injection h with h
      exact ⟨_, h.symm⟩

theorem resolveParent_error (fs : FS) (p : String) (e : Err)
    (h : fs.resolveParent p = .error e) :
    e = .thrownString "/" ∨ e = .rootHasNoParent ∨ ∃ s, e = .dirNotFound s := by
  simp only [FS.resolveParent] at h
  split at h
  case _ e' heq =>
    injection h with h
    subst h
    exact Or.inl (normalizePath_error p e' heq)
  case _ np heq =>
    split at h
    · injection h with h
      exact Or.inr (Or.inl h.symm)
    · split at h
      case _ e' heq2 =>
        injection h with h
        subst h
        exact Or.inr (Or.inr (walkDirs_error _ _ _ e' heq2))
      · exact Except.noConfusion h

mutual
theorem freeClean_freeRec : ∀ (n : FSNode) (fs : FS),
    FreeClean fs → FreeClean (freeRec fs n)
  | .file _ bs _ _, fs, h => freeClean_foldl_freeBlock bs fs h
  | .dir _ ch _, fs, h => freeClean_freeRecList ch fs h

theorem freeClean_freeRecList : ∀ (l : List (String × FSNode)) (fs : FS),
    FreeClean fs → FreeClean (freeRecList fs l)
  | [], _, h => h
  | kv :: rest, fs, h =>
      freeClean_freeRecList rest (freeRec fs kv.2) (freeClean_freeRec kv.2 fs h)
end

theorem freeClean_createFileNode (fs : FS) (nm c ow : String) (mo : Option String)
    (t : Nat) (h : FreeClean fs) : FreeClean (fs.createFileNode nm c ow mo t).2 := by
  unfold FS.createFileNode
  split
  case _ fs' heq =>
    unfold allocChunks at heq
    exact freeClean_allocChunksF fs.blockSize c _ fs 0 [] none fs' heq h
  case _ blocks fs' heq =>
    unfold allocChunks at heq
    exact freeClean_allocChunksF fs.blockSize c _ fs 0 [] (some blocks) fs' heq h

theorem freeClean_createFile (fs : FS) (p c : String) (o mo : Option String)
    (t : Nat) (h : FreeClean fs) : FreeClean (fs.createFile p c o mo t).2 := by
  unfold FS.createFile
  rcases hn : normalizePath p with e | np <;> simp only [hn]
  · exact h
  rcases hp : fs.resolveParent np with e | pr <;> simp only [hp]
  · exact h
  rcases hl : lookupChild pr.parent.childrenOf pr.name with _ | n <;> simp only [hl]
  · rcases hcf : fs.createFileNode pr.name c (o.getD "root") mo t with ⟨r, fs'⟩
    have hc := freeClean_createFileNode fs pr.name c (o.getD "root") mo t h
    rw [hcf] at hc
    rcases r with e | node <;> exact hc
  · exact h

theorem freeClean_writeFile (fs : FS) (p c : String) (t : Nat)
    (h : FreeClean fs) : FreeClean (fs.writeFile p c t).2 := by
  unfold FS.writeFile
  rcases hn : normalizePath p with e | np <;> simp only [hn]
  · exact h
  rcases hs : getSegs np with e | segs <;> simp only [hs]
  · exact h
  rcases hw : walkNode fs.root segs with e | n
  · exact h
  cases n with
  | dir nm ch m => exact h
  | file nm0 bs0 sz0 m0 =>
    have hfold : FreeClean (bs0.foldl FS.freeBlock fs) :=
      freeClean_foldl_freeBlock bs0 fs h
    show FreeClean
      ((match allocChunks fs.blockSize c (List.foldl FS.freeBlock fs bs0) 0 [] with
        | (none, fs2) => ((Except.error Err.diskFullWrite : Except Err FSNode), fs2)
        | (some newBlocks, fs2) =>
          (Except.ok (FSNode.file nm0 newBlocks (strLen c) { m0 with updatedAt := t }),
           { fs2 with
             root := updateNodeAt fs2.root segs (fileUpdate newBlocks (strLen c) t) })).2)
    rcases ha : allocChunks fs.blockSize c (List.foldl FS.freeBlock fs bs0) 0 [] with ⟨r, fs2⟩
    have hc : FreeClean fs2 := by
      unfold allocChunks at ha
      exact freeClean_allocChunksF fs.blockSize c _ _ 0 [] r fs2 ha hfold
    rcases r with _ | newBlocks <;> exact hc

theorem freeClean_deleteNode (fs : FS) (p : String) (t : Nat)
    (h : FreeClean fs) : FreeClean (fs.deleteNode p t).2 := by
  unfold FS.deleteNode
  split
  · exact h
  · split
    · exact h
    · split
      · exact h
      · split
        · exact h
        case _ node heq =>
          exact freeClean_freeRec node fs h

theorem freeClean_format_zero (fs : FS) (t : Nat) :
    FreeClean (fs.format true t) := by
  intro i hi hz
  show listIdxD "" (List.replicate fs.totalBlocks "") i = ""
  rw [listIdxD_replicate]
  split <;> rfl

/-- C8 (amended): the free-blocks-are-empty invariant is preserved by
`freeBlock`, by `allocateBlock` (hence by the allocation rollbacks inside
`createFile` and `writeFile`, both of whose outcomes are covered here), by
`deleteNode`, and by `format` WITH `zeroBlocks` — but, per the counterexample,
not by `format` without `zeroBlocks`. -/
theorem C8_amended_free_blocks_empty_preserved (fs : FS) (b : Nat)
    (p1 p2 p3 : String) (c1 c2 : String) (o mo : Option String) (t : Nat)
    (h : FreeClean fs) :
    FreeClean (fs.freeBlock b) ∧
    FreeClean (fs.allocateBlock).2 ∧
    FreeClean (fs.createFile p1 c1 o mo t).2 ∧
    FreeClean (fs.writeFile p2 c2 t).2 ∧
    FreeClean (fs.deleteNode p3 t).2 ∧
    FreeClean (fs.format true t) :=
  ⟨freeClean_freeBlock fs b h,
   freeClean_allocateBlock fs (fs.allocateBlock).2 (fs.allocateBlock).1 rfl h,
   freeClean_createFile fs p1 c1 o mo t h,
   freeClean_writeFile fs p2 c2 t h,
   freeClean_deleteNode fs p3 t h,
   freeClean_format_zero fs t⟩

/-- Witness for the amended C8 on a concrete volume: the invariant holds of a
fresh 2-block volume and is preserved by a representative call of each
operation. -/
theorem C8_amended_witness :
    FreeClean (FS.new "d" 2 4 0) ∧
    FreeClean ((FS.new "d" 2 4 0).freeBlock 0) ∧
     FreeClean ((FS.new "d" 2 4 0).allocateBlock).2 ∧
     FreeClean (((FS.new "d" 2 4 0).createFile "/x" "ab" none none 1).2) ∧
     FreeClean (((FS.new "d" 2 4 0).writeFile "/x" "ab" 1).2) ∧
     FreeClean (((FS.new "d" 2 4 0).deleteNode "/x" 1).2) ∧
     FreeClean ((FS.new "d" 2 4 0).format true 1) :=
  have h0 : FreeClean (FS.new "d" 2 4 0) := by
    intro i hi hz
    show listIdxD "" (List.replicate 2 "") i = ""
    rw [listIdxD_replicate]
    split <;> rfl
  ⟨h0, C8_amended_free_blocks_empty_preserved (FS.new "d" 2 4 0) 0
    "/x" "/x" "/x" "ab" "ab" none none 1 h0⟩

theorem createFileNode_empty (g : FS) (nm ow : String) (mo : Option String)
    (u : Nat) :
    g.createFileNode nm "" ow mo u =
      (.ok (.file nm [] 0 ⟨u, u, ow, mo.getD "rw-r--r--"⟩), g) := rfl

/-- C10: `createFile(p, "")` with empty content succeeds whenever the parent
resolves and the final name is unused — even when the allocator has zero free
blocks: the chunking loop runs zero iterations, so no block is allocated
(occupancy map and chunk array are untouched) and the inserted File node has
an empty block list and size 0; moreover `createFile` with empty content can
never fail with `DiskFull`, on any volume whatsoever. -/
theorem C10_createFile_empty_content_no_blocks (fs : FS) (p np : String)
    (pr : ParentRes) (t : Nat)
    (hnp : normalizePath p = .ok np)
    (hpr : fs.resolveParent np = .ok pr)
    (hfree : lookupChild pr.parent.childrenOf pr.name = none) :
    (fs.createFile p "" none none t).1 =
      .ok (.file pr.name [] 0 ⟨t, t, "root", "rw-r--r--"⟩) ∧
    (fs.createFile p "" none none t).2.freeBlockMap = fs.freeBlockMap ∧
    (fs.createFile p "" none none t).2.blocks = fs.blocks ∧
    ∀ (g : FS) (q : String) (o mo : Option String) (u : Nat),
      (g.createFile q "" o mo u).1 ≠ .error .diskFullCreate := by
  have hcf : fs.createFile p "" none none t =
      (.ok (.file pr.name [] 0 ⟨t, t, "root", "rw-r--r--"⟩),
       { fs with
         root := updateNodeAt fs.root pr.psegs (insertTouch pr.name (.file pr.name [] 0 ⟨t, t, "root", "rw-r--r--"⟩) t) }) := by
    unfold FS.createFile
    simp only [hnp, hpr, hfree, createFileNode_empty]
    rfl
  refine ⟨by rw [hcf], by rw [hcf], by rw [hcf], ?_⟩
  intro g q o mo u
  unfold FS.createFile
  rcases hq : normalizePath q with e | nq <;> simp only [hq]
  · have he := normalizePath_error q e hq
    subst he
    show (Except.error (Err.thrownString "/") : Except Err FSNode) ≠
      .error .diskFullCreate
    intro hcontra
    injection hcontra with hh
    exact Err.noConfusion hh
  rcases hp : g.resolveParent nq with e | pr2 <;> simp only [hp]
  · show (Except.error e : Except Err FSNode) ≠ .error .diskFullCreate
    intro hcontra
    injection hcontra with hh
    subst hh
    rcases resolveParent_error g nq _ hp with h1 | h1 | ⟨s, h1⟩ <;> exact Err.noConfusion h1
  rcases hl : lookupChild pr2.parent.childrenOf pr2.name with _ | n2 <;> simp only [hl]
  · rw [createFileNode_empty]
    intro hcontra
    exact Except.noConfusion hcontra
  · show (Except.error Err.entryAlreadyExists : Except Err FSNode) ≠
      .error .diskFullCreate
    intro hcontra
    injection hcontra with hh
    exact Err.noConfusion hh

/-- Witness for C10 on a volume with ZERO blocks: the empty create still
succeeds with no blocks and size 0, leaving the (empty) allocator alone. -/
theorem C10_witness :
    normalizePath "/x" = .ok "/x" ∧
    (FS.new "z" 0 4 0).resolveParent "/x" =
      .ok ⟨[], "x", (FS.new "z" 0 4 0).root⟩ ∧
    (FS.new "z" 0 4 0).getFreeBlockCount = 0 ∧
    ((FS.new "z" 0 4 0).createFile "/x" "" none none 5).1 =
      .ok (.file "x" [] 0 ⟨5, 5, "root", "rw-r--r--"⟩) ∧
    ((FS.new "z" 0 4 0).createFile "/x" "" none none 5).2.freeBlockMap =
      (FS.new "z" 0 4 0).freeBlockMap :=
  ⟨rfl, rfl, rfl,
   (C10_createFile_empty_content_no_blocks (FS.new "z" 0 4 0) "/x" "/x"
     ⟨[], "x", (FS.new "z" 0 4 0).root⟩ 5 rfl rfl rfl).1,
   (C10_createFile_empty_content_no_blocks (FS.new "z" 0 4 0) "/x" "/x"
     ⟨[], "x", (FS.new "z" 0 4 0).root⟩ 5 rfl rfl rfl).2.1⟩

/-- C2: when `createFile` fails with `DiskFull` because allocation was
exhausted mid-way, the rollback frees every block allocated during the call —
the occupancy map is EXACTLY what it was before the call, so the free-block
count is unchanged — and no node is inserted (the tree is untouched).  (In
the non-`DiskFull` failure branches the state is trivially untouched as
well.) -/
theorem C2_createFile_diskfull_rollback (fs : FS) (p c : String)
    (o mo : Option String) (t : Nat)
    (hwf : fs.freeBlockMap.length = fs.totalBlocks)
    (herr : (fs.createFile p c o mo t).1 = .error .diskFullCreate) :
    (fs.createFile p c o mo t).2.freeBlockMap = fs.freeBlockMap ∧
    (fs.createFile p c o mo t).2.root = fs.root ∧
    (fs.createFile p c o mo t).2.getFreeBlockCount = fs.getFreeBlockCount := by
  unfold FS.createFile at herr ⊢
  rcases hq : normalizePath p with e | np <;> simp only [hq] at herr ⊢
  · refine ⟨?_, ?_, ?_⟩ <;> trivial
  rcases hp : fs.resolveParent np with e | pr <;> simp only [hp] at herr ⊢
  · refine ⟨?_, ?_, ?_⟩ <;> trivial
  rcases hl : lookupChild pr.parent.childrenOf pr.name with _ | n <;>
    simp only [hl] at herr ⊢
  · rcases hcn : fs.createFileNode pr.name c (o.getD "root") mo t with ⟨r, fs'⟩
    rcases r with e | node
    · simp only [hcn] at herr ⊢
      have hfsx : allocChunks fs.blockSize c fs 0 [] = (none, fs') := by
        unfold FS.createFileNode at hcn
        split at hcn
        case _ fsy heq =>
          injection hcn with h1 h2
          rw [← h2]
          exact heq
        case _ blocks fsy heq =>
          injection hcn with h1 h2
          exact Except.noConfusion h1
      unfold allocChunks at hfsx
      obtain ⟨hmap, _, _, hroot, _, _, _, _, _⟩ :=
        allocChunksF_none fs.blockSize c _ fs 0 [] fs' hfsx hwf
          (fun b hb => absurd hb (List.not_mem_nil b))
      have hmap2 : fs'.freeBlockMap = fs.freeBlockMap := by
        rw [hmap]
        rfl
      refine ⟨hmap2, hroot, ?_⟩
      unfold FS.getFreeBlockCount
      rw [hmap2]
    · simp only [hcn] at herr
      exact Except.noConfusion herr
  · refine ⟨?_, ?_, ?_⟩ <;> trivial

/-- Witness for C2: the spec scenario — `totalBlocks = 1`, `blockSize = 4`,
`createFile("/x", "abcde")` fails with `DiskFull` and `getFreeBlockCount()`
is `1` afterwards. -/
theorem C2_witness :
    ((FS.new "d" 1 4 0).createFile "/x" "abcde" none none 0).1 =
      .error .diskFullCreate ∧
    ((FS.new "d" 1 4 0).createFile "/x" "abcde" none none 0).2.getFreeBlockCount = 1 ∧
    ((FS.new "d" 1 4 0).createFile "/x" "abcde" none none 0).2.root =
      (FS.new "d" 1 4 0).root :=
  ⟨rfl,
   by
    have h := C2_createFile_diskfull_rollback (FS.new "d" 1 4 0) "/x" "abcde"
      none none 0 rfl rfl
    rw [h.2.2]
    rfl,
   (C2_createFile_diskfull_rollback (FS.new "d" 1 4 0) "/x" "abcde"
     none none 0 rfl rfl).2.1⟩

theorem strJoin_all_empty : ∀ (l : List String), (∀ s ∈ l, s = "") →
    strJoin l = "" := by
  intro l
  induction l with
  | nil => intro _; rfl
  | cons s rest ih =>
    intro h
    show s ++ strJoin rest = ""
    rw [h s (List.mem_cons_self s rest), ih (fun x hx => h x (List.mem_cons_of_mem s hx))]
    rfl

/-- C1 (amended): on a mid-way `DiskFull` in `writeFile`, the newly allocated
blocks are rolled back and the file's old blocks have already been freed: the
occupancy map equals the map obtained by just freeing the file's old blocks.
But the file node itself is NOT updated — the tree is byte-for-byte
unchanged, so the file keeps its STALE block list and stale size — and only
reading yields the empty string, because each listed block is now free with
an empty chunk. -/
theorem C1_amended_writeFile_diskfull (fs : FS) (p c np : String)
    (segs : List String) (nm : String) (bs0 : List Nat) (sz : Nat)
    (m : NodeMeta) (t : Nat)
    (hwf : FS.WF fs)
    (hnp : normalizePath p = .ok np)
    (hsegs : getSegs np = .ok segs)
    (hwalk : walkNode fs.root segs = .ok (.file nm bs0 sz m))
    (herr : (fs.writeFile p c t).1 = .error .diskFullWrite) :
    (fs.writeFile p c t).2.root = fs.root ∧
    (fs.writeFile p c t).2.freeBlockMap = (bs0.foldl FS.freeBlock fs).freeBlockMap ∧
    (∀ b ∈ bs0, listIdxD "" (fs.writeFile p c t).2.blocks b = "") ∧
    strJoin (bs0.map (listIdxD "" (fs.writeFile p c t).2.blocks)) = "" := by
  unfold FS.writeFile at herr ⊢
  simp only [hnp, hsegs, hwalk] at herr ⊢
  rcases ha : allocChunks fs.blockSize c (List.foldl FS.freeBlock fs bs0) 0 [] with ⟨r, fs2⟩
  rcases r with _ | newBlocks
  · simp only [ha] at herr ⊢
    obtain ⟨f1, f2, f3, f4, f5, f6⟩ := foldl_freeBlock_frame bs0 fs
    unfold allocChunks at ha
    obtain ⟨hmap, _, hpw, hroot, htb, _, _, hmlen, hblen⟩ :=
      allocChunksF_none fs.blockSize c _ (List.foldl FS.freeBlock fs bs0) 0 [] fs2 ha
        (by rw [f5, f2]; exact hwf.1)
        (fun b hb => absurd hb (List.not_mem_nil b))
    have hmem : ∀ b ∈ bs0, listIdxD "" fs2.blocks b = "" := by
      intro b hb
      by_cases hlt : b < fs.totalBlocks
      · have hfreed : listIdxD "" (List.foldl FS.freeBlock fs bs0).blocks b = "" :=
          foldl_freeBlock_blocks_mem bs0 fs b hb hlt
        rcases hpw b with hp | hp
        · rw [hp, hfreed]
        · exact hp
      · refine listIdxD_ge "" fs2.blocks b ?_
        rw [hblen, f6, hwf.2]
        exact Nat.le_of_not_lt hlt
    refine ⟨?_, ?_, hmem, ?_⟩
    · rw [hroot, f4]
    · rw [hmap]
      rfl
    · refine strJoin_all_empty _ ?_
      intro s hs
      rw [List.mem_map] at hs
      obtain ⟨b, hb, rfl⟩ := hs
      exact hmem b hb
  · simp only [ha] at herr
    exact Except.noConfusion herr

/-- Witness for the amended C1, on the two-block volume where
`writeFile("/f", "xyz")` fails with `DiskFull`. -/
theorem C1_amended_witness :
    FS.WF fsWriteFull ∧
    (fsWriteFull.writeFile "/f" "xyz" 1).2.root = fsWriteFull.root ∧
    (fsWriteFull.writeFile "/f" "xyz" 1).2.freeBlockMap =
      (([0] : List Nat).foldl FS.freeBlock fsWriteFull).freeBlockMap ∧
    strJoin (([0] : List Nat).map
      (listIdxD "" (fsWriteFull.writeFile "/f" "xyz" 1).2.blocks)) = "" :=
  ⟨⟨rfl, rfl⟩,
   (C1_amended_writeFile_diskfull fsWriteFull "/f" "xyz" "/f" ["f"] "f" [0] 1
     ⟨0, 0, "root", "rw-r--r--"⟩ 1 ⟨rfl, rfl⟩ rfl rfl rfl rfl).1,
   (C1_amended_writeFile_diskfull fsWriteFull "/f" "xyz" "/f" ["f"] "f" [0] 1
     ⟨0, 0, "root", "rw-r--r--"⟩ 1 ⟨rfl, rfl⟩ rfl rfl rfl rfl).2.1,
   (C1_amended_writeFile_diskfull fsWriteFull "/f" "xyz" "/f" ["f"] "f" [0] 1
     ⟨0, 0, "root", "rw-r--r--"⟩ 1 ⟨rfl, rfl⟩ rfl rfl rfl rfl).2.2.2⟩

/-- C5 (amended): for every path whose normalized form is stable under the
second normalization performed inside `writeFile`'s node lookup (true of
every ordinary absolute path; only paths with leading `".."` segments
aimed at literally-named `".."` entries escape it, per the counterexample),
a successful `writeFile(p, c)` followed by `readFile(p)` returns exactly
`c` — including the empty string and content spanning multiple blocks. -/
theorem C5_amended_write_read_roundtrip (fs : FS) (p c np : String) (t : Nat)
    (hwf : FS.WF fs)
    (hnp : normalizePath p = .ok np)
    (hstable : normalizePath np = .ok np)
    (hok : ∃ node, (fs.writeFile p c t).1 = .ok node) :
    (fs.writeFile p c t).2.readFile p = (.ok c, (fs.writeFile p c t).2) := by
  obtain ⟨node, hok⟩ := hok
  have hgs : getSegs np = .ok (pathSegments np) := by
    unfold getSegs
    rw [hstable]
  unfold FS.writeFile at hok ⊢
  simp only [hnp, hgs] at hok ⊢
  rcases hw : walkNode fs.root (pathSegments np) with e | n
  · simp only [hw] at hok
    exact Except.noConfusion hok
  cases n with
  | dir nm ch m =>
    simp only [hw] at hok
    exact Except.noConfusion hok
  | file nm0 bs0 sz0 m0 =>
    simp only [hw] at hok ⊢
    rcases ha : allocChunks fs.blockSize c (List.foldl FS.freeBlock fs bs0) 0 [] with ⟨r, fs2⟩
    rcases r with _ | newBlocks
    · simp only [ha] at hok
      exact Except.noConfusion hok
    · simp only [ha] at hok ⊢
      obtain ⟨f1, f2, f3, f4, f5, f6⟩ := foldl_freeBlock_frame bs0 fs
      unfold allocChunks at ha
      obtain ⟨⟨suffix, hsfx, hjoin⟩, hocc, hroot, htb, hname, hbsz, hmlen, hblen⟩ :=
        allocChunksF_some fs.blockSize c _ (List.foldl FS.freeBlock fs bs0) 0 []
          newBlocks fs2 ha (by rw [f5, f6, hwf.2, hwf.1])
      have hnb : newBlocks = suffix := by simpa using hsfx
      rw [strDrop_zero] at hjoin
      have hr2 : fs2.root = fs.root := by rw [hroot, f4]
      have hw2 := walkNode_updateNodeAt (fileUpdate newBlocks (strLen c) t)
        (pathSegments np) fs.root _ hw
      unfold FS.readFile FS.getNode getSegs
      rw [hnp]
      simp only [hr2, hw2]
      show (Except.ok (strJoin (newBlocks.map (listIdxD "" fs2.blocks))), _) =
        (Except.ok c, _)
      rw [hnb, hjoin]

/-- Witness for the amended C5: on a 4-block volume with `blockSize = 2`,
writing `"abcde"` (three blocks) to an initially empty `/f` and reading it
back returns exactly `"abcde"`. -/
theorem C5_amended_witness :
    normalizePath "/f" = .ok "/f" ∧
    ((((FS.new "d" 4 2 0).createFile "/f" "" none none 0).2.writeFile
        "/f" "abcde" 1).2.readFile "/f") =
      (.ok "abcde",
       (((FS.new "d" 4 2 0).createFile "/f" "" none none 0).2.writeFile
         "/f" "abcde" 1).2) :=
  ⟨rfl,
   C5_amended_write_read_roundtrip
     ((FS.new "d" 4 2 0).createFile "/f" "" none none 0).2
     "/f" "abcde" "/f" 1 ⟨rfl, rfl⟩ rfl rfl ⟨_, rfl⟩⟩

/-- The scan of `resolve` selects the longest matching non-root mount (first
match in the length-descending table), or reports no match. -/
theorem resolveScan_spec : ∀ (l : List Mount) (np : String),
    List.Pairwise (fun a b : Mount => b.mountPoint.length ≤ a.mountPoint.length) l →
    (∃ m, resolveScan l np = some (m, stripInner np m.mountPoint) ∧ m ∈ l ∧
      m.mountPoint ≠ "/" ∧ mountMatches m.mountPoint np = true ∧
      ∀ m2 ∈ l, m2.mountPoint ≠ "/" → mountMatches m2.mountPoint np = true →
        m2.mountPoint.length ≤ m.mountPoint.length) ∨
    (resolveScan l np = none ∧
      ∀ m ∈ l, m.mountPoint = "/" ∨ mountMatches m.mountPoint np = false) := by
  intro l
  induction l with
  | nil =>
    intro np _
    exact Or.inr ⟨rfl, fun m hm => absurd hm (List.not_mem_nil m)⟩
  | cons m0 rest ih =>
    intro np hp
    rw [List.pairwise_cons] at hp
    obtain ⟨hhead, htail⟩ := hp
    by_cases hroot : m0.mountPoint = "/"
    · rcases ih np htail with ⟨m, hscan, hmem, hne, hmatch, hmax⟩ | ⟨hscan, hnone⟩
      · refine Or.inl ⟨m, ?_, List.mem_cons_of_mem m0 hmem, hne, hmatch, ?_⟩
        · simp only [resolveScan, if_pos hroot]
          exact hscan
        · intro m2 hm2 hne2 hmatch2
          rcases List.mem_cons.mp hm2 with rfl | hm2
          · exact absurd hroot hne2
          · exact hmax m2 hm2 hne2 hmatch2
      · refine Or.inr ⟨?_, ?_⟩
        · simp only [resolveScan, if_pos hroot]
          exact hscan
        · intro m hm
          rcases List.mem_cons.mp hm with rfl | hm
          · exact Or.inl hroot
          · exact hnone m hm
    · by_cases hmatch0 : mountMatches m0.mountPoint np = true
      · refine Or.inl ⟨m0, ?_, List.mem_cons_self m0 rest, hroot, hmatch0, ?_⟩
        · simp only [resolveScan, if_neg hroot, if_pos hmatch0]
        · intro m2 hm2 _ _
          rcases List.mem_cons.mp hm2 with rfl | hm2
          · exact Nat.le_refl _
          · exact hhead m2 hm2
      · have hmatch0' : mountMatches m0.mountPoint np = false :=
          Bool.eq_false_iff.mpr hmatch0
        rcases ih np htail with ⟨m, hscan, hmem, hne, hmatch, hmax⟩ | ⟨hscan, hnone⟩
        · refine Or.inl ⟨m, ?_, List.mem_cons_of_mem m0 hmem, hne, hmatch, ?_⟩
          · simp only [resolveScan, if_neg hroot, hmatch0', if_false]
            exact hscan
          · intro m2 hm2 hne2 hmatch2
            rcases List.mem_cons.mp hm2 with rfl | hm2
            · rw [hmatch0'] at hmatch2
              exact Bool.noConfusion hmatch2
            · exact hmax m2 hm2 hne2 hmatch2
        · refine Or.inr ⟨?_, ?_⟩
          · simp only [resolveScan, if_neg hroot, hmatch0', if_false]
            exact hscan
          · intro m hm
            rcases List.mem_cons.mp hm with rfl | hm
            · exact Or.inr hmatch0'
            · exact hnone m hm

/-- C6 (amended): `resolve` normalizes the path, then selects the LONGEST
non-root mount point that is exactly equal to the normalized path or a
proper prefix of it followed by `/`, returning that volume with the
stripped-and-RE-NORMALIZED remainder (empty remainder becomes `/`,
`stripInner`); when no non-root mount matches, it falls back to the root
mount with the full normalized path. -/
theorem C6_amended_resolve_longest_match (v : VFS) (p np : String)
    (hnp : normalizePath p = .ok np)
    (hs : List.Pairwise (fun a b : Mount => b.mountPoint.length ≤ a.mountPoint.length)
      v.mounts) :
    (∃ m, m ∈ v.mounts ∧ m.mountPoint ≠ "/" ∧ mountMatches m.mountPoint np = true ∧
      (∀ m2 ∈ v.mounts, m2.mountPoint ≠ "/" → mountMatches m2.mountPoint np = true →
        m2.mountPoint.length ≤ m.mountPoint.length) ∧
      v.resolve p = .ok (m, stripInner np m.mountPoint)) ∨
    ((∀ m ∈ v.mounts, m.mountPoint = "/" ∨ mountMatches m.mountPoint np = false) ∧
      v.resolve p = (match findRoot v.mounts with
        | some rm => .ok (rm, np)
        | none => .error .rootMountMissing)) := by
  rcases resolveScan_spec v.mounts np hs with
    ⟨m, hscan, hmem, hne, hmatch, hmax⟩ | ⟨hscan, hnone⟩
  · refine Or.inl ⟨m, hmem, hne, hmatch, hmax, ?_⟩
    unfold VFS.resolve
    rw [hnp]
    simp only [hscan]
  · refine Or.inr ⟨hnone, ?_⟩
    unfold VFS.resolve
    rw [hnp]
    simp only [hscan]

/-- Witness for the amended C6: with mounts at `/` and `/mnt/usb`,
`resolve("/mnt/usb/x.txt")` yields the usb volume with inner path `/x.txt`,
and `resolve("/mnt/other")` falls back to the root volume with inner path
`/mnt/other`. -/
theorem C6_amended_witness :
    normalizePath "/mnt/usb/x.txt" = .ok "/mnt/usb/x.txt" ∧
    ((∃ m, m ∈ vfsUsb.mounts ∧ m.mountPoint ≠ "/" ∧
        mountMatches m.mountPoint "/mnt/usb/x.txt" = true ∧
        (∀ m2 ∈ vfsUsb.mounts, m2.mountPoint ≠ "/" →
          mountMatches m2.mountPoint "/mnt/usb/x.txt" = true →
          m2.mountPoint.length ≤ m.mountPoint.length) ∧
        vfsUsb.resolve "/mnt/usb/x.txt" =
          .ok (m, stripInner "/mnt/usb/x.txt" m.mountPoint)) ∨
      ((∀ m ∈ vfsUsb.mounts, m.mountPoint = "/" ∨
          mountMatches m.mountPoint "/mnt/usb/x.txt" = false) ∧
        vfsUsb.resolve "/mnt/usb/x.txt" = (match findRoot vfsUsb.mounts with
          | some rm => .ok (rm, "/mnt/usb/x.txt")
          | none => .error .rootMountMissing))) ∧
    vfsUsb.resolve "/mnt/usb/x.txt" = .ok (⟨"/mnt/usb", usbFS⟩, "/x.txt") ∧
    vfsUsb.resolve "/mnt/other" =
      .ok (⟨"/", FS.new "root" 4096 4096 0⟩, "/mnt/other") ∧
    vfsUsb.resolve "/mnt/usb" = .ok (⟨"/mnt/usb", usbFS⟩, "/") :=
  have hs : List.Pairwise
      (fun a b : Mount => b.mountPoint.length ≤ a.mountPoint.length)
      vfsUsb.mounts := by
    have hmounts : vfsUsb.mounts =
        [⟨"/mnt/usb", usbFS⟩, ⟨"/", FS.new "root" 4096 4096 0⟩] := rfl
    rw [hmounts]
    refine List.Pairwise.cons ?_ (List.Pairwise.cons ?_ List.Pairwise.nil)
    · intro b hb
      rw [List.mem_singleton.mp hb]
      decide
    · intro b hb
      exact absurd hb (List.not_mem_nil b)
  ⟨rfl,
   C6_amended_resolve_longest_match vfsUsb "/mnt/usb/x.txt" "/mnt/usb/x.txt" rfl hs,
   rfl, rfl, rfl⟩

/- ---------------------- fidelity of the fuel encoding ---------------------- -/

theorem firstFree_count_set : ∀ (l : List Nat) (i : Nat),
    firstFree l = some i → (l.set i 1).count 0 < l.count 0 := by
  intro l
  induction l with
  | nil => intro i hi; simp [firstFree] at hi
  | cons v rest ih =>
    intro i hi
    by_cases hv : v = 0
    · subst hv
      simp only [firstFree, if_pos rfl] at hi
      cases hi
      simp [List.count_cons]
    · simp only [firstFree, if_neg hv, Option.map_eq_some'] at hi
      obtain ⟨j, hj, rfl⟩ := hi
      have hstep : ((v :: rest).set (j + 1) 1) = v :: rest.set j 1 := rfl
      rw [hstep]
      simp only [List.count_cons]
      exact Nat.add_lt_add_right (ih j hj) _

theorem allocateBlock_count_lt (fs fs1 : FS) (b : Nat)
    (h : fs.allocateBlock = (some b, fs1)) :
    fs1.getFreeBlockCount < fs.getFreeBlockCount := by
  obtain ⟨hff, hfs1⟩ := allocateBlock_some fs fs1 b h
  subst hfs1
  exact firstFree_count_set fs.freeBlockMap b hff

/-- Any two sufficient fuels make `allocChunksF` agree, because each loop
iteration that recurses removes one free block. -/
theorem allocChunksF_fuel_irrel (bs : Nat) (c : String) : ∀ (fuel1 fuel2 : Nat)
    (fs : FS) (cursor : Nat) (acc : List Nat),
    fs.getFreeBlockCount < fuel1 → fs.getFreeBlockCount < fuel2 →
    allocChunksF bs c fuel1 fs cursor acc = allocChunksF bs c fuel2 fs cursor acc := by
  intro fuel1
  induction fuel1 with
  | zero =>
    intro fuel2 fs cursor acc h1 _
    exact absurd h1 (Nat.not_lt_zero _)
  | succ k ih =>
    intro fuel2 fs cursor acc h1 h2
    cases fuel2 with
    | zero => exact absurd h2 (Nat.not_lt_zero _)
    | succ j =>
      simp only [allocChunksF]
      split
      · rcases ha : fs.allocateBlock with ⟨r, fs1⟩
        rcases r with _ | b
        · rfl
        · have hlt : fs1.getFreeBlockCount < fs.getFreeBlockCount :=
            allocateBlock_count_lt fs fs1 b ha
          have hcount :
              ({ fs1 with blocks := fs1.blocks.set b (strTake (strDrop c cursor) bs) }
                : FS).getFreeBlockCount = fs1.getFreeBlockCount := rfl
          refine ih j _ (cursor + bs) (acc ++ [b]) ?_ ?_
          · rw [hcount]
            exact Nat.lt_of_lt_of_le hlt (Nat.lt_succ_iff.mp h1)
          · rw [hcount]
            exact Nat.lt_of_lt_of_le hlt (Nat.lt_succ_iff.mp h2)
      · rfl

/-- Fidelity certificate for the fuel encoding: `allocChunks` satisfies the
unconditional loop recurrence of the source's chunk-and-allocate loop, for
every state — the fuel-zero branch is unreachable with the supplied fuel. -/
theorem allocChunks_eq (bs : Nat) (c : String) (fs : FS) (cursor : Nat)
    (acc : List Nat) :
    allocChunks bs c fs cursor acc =
      if cursor < strLen c then
        match fs.allocateBlock with
        | (none, fs1) => (none, acc.foldl FS.freeBlock fs1)
        | (some b, fs1) =>
            allocChunks bs c
              { fs1 with blocks := fs1.blocks.set b (strTake (strDrop c cursor) bs) }
              (cursor + bs) (acc ++ [b])
      else (some acc, fs) := by
  by_cases hcur : cursor < strLen c
  · rw [if_pos hcur]
    rcases ha : fs.allocateBlock with ⟨r, fs1⟩
    rcases r with _ | b
    · show allocChunksF bs c (fs.getFreeBlockCount + 1) fs cursor acc = _
      simp only [allocChunksF, if_pos hcur, ha]
    · show allocChunksF bs c (fs.getFreeBlockCount + 1) fs cursor acc = _
      simp only [allocChunksF, if_pos hcur, ha]
      have hlt : fs1.getFreeBlockCount < fs.getFreeBlockCount :=
        allocateBlock_count_lt fs fs1 b ha
      have hcount :
          ({ fs1 with blocks := fs1.blocks.set b (strTake (strDrop c cursor) bs) }
            : FS).getFreeBlockCount = fs1.getFreeBlockCount := rfl
      exact allocChunksF_fuel_irrel bs c fs.getFreeBlockCount
        (({ fs1 with blocks := fs1.blocks.set b (strTake (strDrop c cursor) bs) }
          : FS).getFreeBlockCount + 1)
        _ (cursor + bs) (acc ++ [b]) (by rw [hcount]; exact hlt)
        (Nat.lt_succ_self _)
  · rw [if_neg hcur]
    show allocChunksF bs c (fs.getFreeBlockCount + 1) fs cursor acc = _
    simp only [allocChunksF, if_neg hcur]
